import Mathlib

/-!
# RTNN range search: batch scheduling, grid sizing and active-set selection

A shallow embedding of the host-side logic of `SDK/optixRangeSearch`
(`main.cpp`, `search.cpp`, `sort.cpp`) together with the properties of the
design document that were checked against it.

Conventions of the embedding.

* `unsigned int` values are natural numbers; every arithmetic operation that
  the source performs in 32 bits is reduced modulo `2 ^ 32` explicitly.
* `float` radii are values of an arbitrary type `R` carrying a division; the
  only test the scheduler performs on them is `gsrRatio != 1`.
* `genGridInfo` starts from the initial per-axis cell counts, which the source
  obtains in floating point; its one floating-point step on integers,
  `ceilf(a / (float)b)`, is computed with IEEE-754 single-precision rounding.
* `genMask` takes the two truncated floating-point quantities it compares,
  `maxWidth` and the width of ring `iter`, as inputs.
* Calls into the OptiX back end (`createGeometry`, `gasSortSearch`, `search`)
  are recorded in a trace, in the order in which `main` issues them.
* A `while (1)` loop takes a fuel argument and returns `none` when the fuel
  runs out; results about it state how much fuel is enough.

The first part of the file holds the definitions, the second the theorems.
-/

namespace RTNN

/-! ## Part I: definitions -/

/-! ### `main.cpp`: the batch scheduler -/

/-- A call that `main` issues to the search pipeline, with the arguments it passes. -/
inductive Call (R : Type) where
  | createGeometry (batch_id : Nat) (radius : R)
  | gasSortSearch (batch_id : Nat)
  | search (batch_id : Nat)
  deriving DecidableEq, Repr

/-- The batch a call is issued for (its `batch_id` argument). -/
def Call.batch {R : Type} : Call R → Nat
  | Call.createGeometry i _ => i
  | Call.gasSortSearch i => i
  | Call.search i => i

/-- The fields of `WhittedState` read by the scheduling loops of `main`
(`main.cpp` lines 86-128). Neither `gasSortSearch` nor `search` (`search.cpp`) nor
`gatherQueries` (`sort.cpp`) writes to them, so they are constant over the loops.
`numOfBatches` is an `int`, `qGasSortMode` an unsigned mode number tested for being
non-zero, `numActQueries` and `launchRadius` are arrays indexed by batch. -/
structure WhittedState (R : Type) where
  interleave : Bool
  numOfBatches : Int
  numActQueries : Nat → Nat
  launchRadius : Nat → R
  qGasSortMode : Nat
  gsrRatio : R

/-- First loop of the interleaved ordering (`main.cpp` lines 87-94). -/
def interleavedBuild {R : Type} [Div R] (state : WhittedState R) (i : Nat) : List (Call R) :=
  if state.numActQueries i = 0 then []
  else [Call.createGeometry i (state.launchRadius i / state.gsrRatio)]

/-- Second loop of the interleaved ordering (`main.cpp` lines 96-99). -/
def interleavedGasSort {R : Type} (state : WhittedState R) (i : Nat) : List (Call R) :=
  if state.numActQueries i = 0 then []
  else if state.qGasSortMode ≠ 0 then [Call.gasSortSearch i] else []

/-- Third loop of the interleaved ordering (`main.cpp` lines 101-105). -/
def interleavedRebuild {R : Type} [One R] [DecidableEq R] (state : WhittedState R) (i : Nat) :
    List (Call R) :=
  if state.numActQueries i = 0 then []
  else if state.qGasSortMode ≠ 0 ∧ state.gsrRatio ≠ 1 then
    [Call.createGeometry i (state.launchRadius i)]
  else []

/-- Fourth loop of the interleaved ordering (`main.cpp` lines 107-111). -/
def interleavedSearch {R : Type} (state : WhittedState R) (i : Nat) : List (Call R) :=
  if state.numActQueries i = 0 then [] else [Call.search i]

/-- Body of the loop of the sequential ordering (`main.cpp` lines 113-127). -/
def sequentialBody {R : Type} [Div R] [One R] [DecidableEq R] (state : WhittedState R)
    (i : Nat) : List (Call R) :=
  if state.numActQueries i = 0 then []
  else
    [Call.createGeometry i (state.launchRadius i / state.gsrRatio)]
      ++ (if state.qGasSortMode ≠ 0 then
            [Call.gasSortSearch i]
              ++ (if state.gsrRatio ≠ 1 then [Call.createGeometry i (state.launchRadius i)]
                  else [])
          else [])
      ++ [Call.search i]

/-- A loop `for (int i = 0; i < state.numOfBatches; i++)` collecting the calls of its body. -/
def forBatches {R : Type} (state : WhittedState R) (body : Nat → List (Call R)) :
    List (Call R) :=
  (List.range state.numOfBatches.toNat).flatMap body

/-- The calls issued by `main` when `state.interleave` is set. -/
def mainInterleaved {R : Type} [Div R] [One R] [DecidableEq R] (state : WhittedState R) :
    List (Call R) :=
  forBatches state (interleavedBuild state)
    ++ forBatches state (interleavedGasSort state)
    ++ forBatches state (interleavedRebuild state)
    ++ forBatches state (interleavedSearch state)

/-- The calls issued by `main` when `state.interleave` is clear. -/
def mainSequential {R : Type} [Div R] [One R] [DecidableEq R] (state : WhittedState R) :
    List (Call R) :=
  forBatches state (sequentialBody state)

/-- The calls issued by `main` (`main.cpp` lines 86-128). -/
def mainCalls {R : Type} [Div R] [One R] [DecidableEq R] (state : WhittedState R) :
    List (Call R) :=
  if state.interleave then mainInterleaved state else mainSequential state

/-- The subsequence of a trace made of the calls issued for batch `i`. -/
def callsOfBatch {R : Type} (i : Nat) (t : List (Call R)) : List (Call R) :=
  t.filter (fun c => c.batch = i)

/-- The radius arguments of the `createGeometry` calls of batch `i`, in order of issue. -/
def createGeometryRadii {R : Type} (i : Nat) (t : List (Call R)) : List R :=
  t.filterMap (fun c =>
    match c with
    | Call.createGeometry b r => if b = i then some r else none
    | _ => none)

/-- Three batches with radii `1, 2, 3`, the middle one without active queries, locality
sort by first-hit coordinate (`qGasSortMode = 1`), `gsrRatio = 2`. -/
def stateThreeBatches : WhittedState ℚ :=
  { interleave := true, numOfBatches := 3,
    numActQueries := fun i => if i = 1 then 0 else 5,
    launchRadius := fun i => (i : ℚ) + 1, qGasSortMode := 1, gsrRatio := 2 }

/-! ### `sort.cpp`, `gridSort`: positions in the sorted order -/

/-- Modelled from the spec: the device wrapper `exclusiveScan` is called by `gridSort`
(`sort.cpp` line 235) and defined outside `src/`. The design document describes it as
"Prefix-sum (exclusive scan) per-cell counts to get per-cell offsets": entry `c` of the
output is the sum of the entries of the input before `c`, in `unsigned int`. -/
def exclusiveScan (d_in : List Nat) : List Nat :=
  (List.range d_in.length).map (fun c => (d_in.take c).sum % 2 ^ 32)

/-- Modelled from the spec: the kernel `kCountingSortIndices` is launched by `gridSort`
(`sort.cpp` lines 290-297) and defined outside `src/`. The design document describes it
as "Final sorted position = cell offset + intra-cell rank", computed per particle in
`unsigned int`. -/
def kCountingSortIndices (particleCellIndices cellOffsets localSortedIndices : List Nat) :
    List Nat :=
  List.zipWith (fun c r => (cellOffsets.getD c 0 + r) % 2 ^ 32)
    particleCellIndices localSortedIndices

/-- The array `d_posInSortedPoints_ptr` as `gridSort` computes it (`sort.cpp` lines
233-235 and 290-297) from the per-particle cell indices, the per-cell counts and the
per-particle ranks that `kInsertParticles` produced. -/
def posInSortedPoints (particleCellIndices cellParticleCounts localSortedIndices : List Nat) :
    List Nat :=
  kCountingSortIndices particleCellIndices (exclusiveScan cellParticleCounts)
    localSortedIndices

/-! ### `sort.cpp`, `genGridInfo`: grid and meta-grid sizing -/

/-- A CUDA `uint3`. -/
structure uint3 where
  x : Nat
  y : Nat
  z : Nat
  deriving DecidableEq, Repr

/-- The integer fields of `GridInfo` that `genGridInfo` stores. -/
structure GridInfo where
  GridDimension : uint3
  meta_grid_dim : Nat
  meta_grid_size : Nat
  MetaGridDimension : uint3
  deriving DecidableEq, Repr

/-- Multiplication of two `unsigned int` values. -/
def uintMul (a b : Nat) : Nat := (a * b) % 2 ^ 32

/-- Worker of `floorLog2`: halve until below `2`. -/
def floorLog2Aux : Nat → Nat → Nat
  | 0, _ => 0
  | fuel + 1, n => if n < 2 then 0 else floorLog2Aux fuel (n / 2) + 1

/-- The binary exponent of `n`: the largest `e` with `2 ^ e ≤ n`, for `0 < n < 2 ^ 64`. -/
def floorLog2 (n : Nat) : Nat := floorLog2Aux 64 n

/-- The integer nearest to `p / q`, ties to even (the IEEE-754 default rounding). -/
def roundHalfEven (p q : Nat) : Nat :=
  if 2 * (p % q) < q then p / q
  else if q < 2 * (p % q) then p / q + 1
  else if (p / q) % 2 = 0 then p / q else p / q + 1

/-- The value of the conversion of the `unsigned int` `a` to `float`: `a` itself below
`2 ^ 24`, and `a` rounded to 24 significant bits above. -/
def uintToFloat (a : Nat) : Nat :=
  if a < 2 ^ 24 then a
  else roundHalfEven a (2 ^ (floorLog2 a - 23)) * 2 ^ (floorLog2 a - 23)

/-- The expression `static_cast<unsigned int>(ceilf(a / (float)b))` of `genGridInfo`
(`sort.cpp` lines 171-173) for `unsigned int` operands: both are converted to `float`,
the quotient is rounded to 24 significant bits, then `ceilf` is applied. A zero divisor
makes the source divide by zero and convert an infinity or a NaN, which is undefined; the
model returns `0` there, and the properties of `genGridInfo` below concern positive cell
counts. -/
def ceilfDiv (a b : Nat) : Nat :=
  let x := uintToFloat a
  let y := uintToFloat b
  if y = 0 ∨ x = 0 then 0
  else if x < y then 1
  else
    let e := floorLog2 (x / y)
    if 23 ≤ e then roundHalfEven x (y * 2 ^ (e - 23)) * 2 ^ (e - 23)
    else (roundHalfEven (x * 2 ^ (23 - e)) y + 2 ^ (23 - e) - 1) / 2 ^ (23 - e)

/-- The function `genGridInfo` (`sort.cpp` lines 138-190) from line 163 on. Its argument
`dim0` is the initial `GridDimension` of lines 147-149, the per-axis cell counts
`static_cast<unsigned int>(ceilf(gridSize / cellSize))`, computed in floating point from
the bounding box, the radius and the cell ratio. The result is the returned
`numberOfCells` and the stored `GridInfo`. -/
def genGridInfo (dim0 : uint3) : Nat × GridInfo :=
  let meta_grid_dim := min dim0.x (min dim0.y dim0.z)
  let meta_grid_size := uintMul (uintMul meta_grid_dim meta_grid_dim) meta_grid_dim
  let MetaGridDimension : uint3 :=
    { x := ceilfDiv dim0.x meta_grid_dim
      y := ceilfDiv dim0.y meta_grid_dim
      z := ceilfDiv dim0.z meta_grid_dim }
  let numberOfCells :=
    uintMul (uintMul (uintMul MetaGridDimension.x MetaGridDimension.y) MetaGridDimension.z)
      meta_grid_size
  (numberOfCells,
    { GridDimension :=
        { x := uintMul MetaGridDimension.x meta_grid_dim
          y := uintMul MetaGridDimension.y meta_grid_dim
          z := uintMul MetaGridDimension.z meta_grid_dim }
      meta_grid_dim := meta_grid_dim
      meta_grid_size := meta_grid_size
      MetaGridDimension := MetaGridDimension })

/-! ### `sort.cpp`, `genMask`: active-set selection -/

/-- The values `lo, lo + 1, ..., hi` of a loop `for (int i = lo; i <= hi; i++)`. -/
def intRange (lo hi : Int) : List Int :=
  (List.range (hi + 1 - lo).toNat).map (fun (t : Nat) => lo + (t : Int))

/-- The raster index `(x * GridDimension.y + y) * GridDimension.z + z`, computed in
`unsigned int` (`sort.cpp` lines 84 and 97). -/
def cellIndexOf (G : uint3) (x y z : Nat) : Nat :=
  ((x * G.y + y) * G.z + z) % 2 ^ 32

/-- What `genMask` reads besides the grid and the counts: the target `state.params.knn`
(an `unsigned int`, so that `count >= state.params.knn` compares as unsigned) and the two
quantities it computes in floating point and truncates to `int`:
`maxWidth = state.params.radius / sqrt(2) * 2` (line 90) and, for every `iter`,
`width iter = (iter * 2 + 1) * state.params.radius / state.crRatio` (line 104). -/
structure MaskParams where
  knn : Nat
  maxWidth : Int
  width : Nat → Int

/-- The term that the innermost loop of `genMask` adds to `count` for the neighbour
`(ix, iy, iz)` (`sort.cpp` lines 95-99): nothing outside the grid, the count of the cell
inside. -/
def neighbourCount (h_CellParticleCounts : List Nat) (G : uint3) (ix iy iz : Int) : Nat :=
  if ix < 0 ∨ ix ≥ G.x ∨ iy < 0 ∨ iy ≥ G.y ∨ iz < 0 ∨ iz ≥ G.z then 0
  else h_CellParticleCounts.getD (cellIndexOf G ix.toNat iy.toNat iz.toNat) 0

/-- The sum accumulated by the three nested loops over the cube of half-width `iter`
around cell `(x, y, z)` (`sort.cpp` lines 92-102), before any reduction to 32 bits. -/
def ringSum (h_CellParticleCounts : List Nat) (G : uint3) (x y z iter : Nat) : Nat :=
  ((intRange ((x : Int) - iter) ((x : Int) + iter)).map fun ix =>
    ((intRange ((y : Int) - iter) ((y : Int) + iter)).map fun iy =>
      ((intRange ((z : Int) - iter) ((z : Int) + iter)).map fun iz =>
        neighbourCount h_CellParticleCounts G ix iy iz).sum).sum).sum

/-- The value of `count` after the three nested loops, as the 32-bit variable holds it. -/
def ringCount (h_CellParticleCounts : List Nat) (G : uint3) (x y z iter : Nat) : Nat :=
  ringSum h_CellParticleCounts G x y z iter % 2 ^ 32

/-- The `while (1)` loop of `genMask` for cell `(x, y, z)` (`sort.cpp` lines 91-117),
entered with the given `iter`; the result is the value stored in
`cellSearchSize[cellIndex]`, and `none` when the fuel runs out. -/
def ringSearch (h_CellParticleCounts : List Nat) (G : uint3) (p : MaskParams) (x y z : Nat) :
    Nat → Nat → Option Nat
  | 0, _ => none
  | fuel + 1, iter =>
    if p.width iter > p.maxWidth then some 0
    else if ringCount h_CellParticleCounts G x y z iter ≥ p.knn then some (iter + 1)
    else ringSearch h_CellParticleCounts G p x y z fuel (iter + 1)

/-- The cells `(x, y, z)` in the order in which the loops of lines 80-82 visit them. -/
def gridCells (G : uint3) : List (Nat × Nat × Nat) :=
  (List.range G.x).flatMap fun x =>
    (List.range G.y).flatMap fun y => (List.range G.z).map fun z => (x, y, z)

/-- The loops of `genMask` over the cells (`sort.cpp` lines 80-121), threading the
vector `cellSearchSize`. -/
def genMaskLoop (h_CellParticleCounts : List Nat) (G : uint3) (p : MaskParams) (fuel : Nat) :
    List (Nat × Nat × Nat) → List Nat → Option (List Nat)
  | [], cellSearchSize => some cellSearchSize
  | (x, y, z) :: rest, cellSearchSize =>
    if h_CellParticleCounts.getD (cellIndexOf G x y z) 0 = 0 then
      genMaskLoop h_CellParticleCounts G p fuel rest cellSearchSize
    else
      match ringSearch h_CellParticleCounts G p x y z fuel 0 with
      | none => none
      | some s =>
        genMaskLoop h_CellParticleCounts G p fuel rest
          (cellSearchSize.set (cellIndexOf G x y z) s)

/-- What `genMask` leaves behind: the local vector `cellSearchSize` and `state.cellMask`. -/
structure MaskResult where
  cellSearchSize : List Nat
  cellMask : List Bool
  deriving DecidableEq, Repr

/-- The function `genMask` (`sort.cpp` lines 77-136): the loops over the cells fill
`cellSearchSize`, then `cellMask[i]` is set to `cellSearchSize[i] > 0 && cellSearchSize[i]
<= 2` for every `i < numberOfCells`. The two counters that are only printed (lines 124,
129 and 134-135) are left out. -/
def genMask (h_CellParticleCounts : List Nat) (numberOfCells : Nat) (G : uint3)
    (p : MaskParams) (fuel : Nat) : Option MaskResult :=
  (genMaskLoop h_CellParticleCounts G p fuel (gridCells G)
      (List.replicate numberOfCells 0)).map fun cellSearchSize =>
    { cellSearchSize := cellSearchSize
      cellMask := cellSearchSize.map fun s => decide (s > 0 ∧ s ≤ 2) }

/-- The sum of the counts of all cells of the grid, visited in raster order. -/
def gridTotal (h_CellParticleCounts : List Nat) (G : uint3) : Nat :=
  ∑ x in Finset.range G.x, ∑ y in Finset.range G.y, ∑ z in Finset.range G.z,
    h_CellParticleCounts.getD (cellIndexOf G x y z) 0

/-- Radius `5`, cell ratio `1`, `k = 3`: `maxWidth` is `7` (from `7.07`) and the width of
ring `iter` is `(2 * iter + 1) * 5`, so that only ring `0` fits. -/
def paramsRingZero : MaskParams :=
  { knn := 3, maxWidth := 7, width := fun i => (2 * (i : Int) + 1) * 5 }

/-- Radius `10`, cell ratio `0.5`, `k = 3`: `maxWidth` is `14` (from `14.14`) and the
width of ring `iter` is `(2 * iter + 1) * 20`, so that not even ring `0` fits. -/
def paramsWideCell : MaskParams :=
  { knn := 3, maxWidth := 14, width := fun i => (2 * (i : Int) + 1) * 20 }

/-- Per-cell counts of a `2 x 2 x 2` grid holding eight particles. -/
def countsTwoCube : List Nat := [3, 1, 0, 1, 0, 0, 2, 1]

/-! ### `sort.cpp`, `gridSort`: the partition branch -/

/-- Modelled from the spec: the kernel `kCountingSortIndices_genMask` is launched by
`gridSort` (`sort.cpp` lines 250-259) and defined outside `src/`. Besides the sorted
positions it fills the ray mask, which the design document describes as "a
boolean-per-query array derived from per-particle cell mask lookup". -/
def rayMaskOfCells (particleCellIndices : List Nat) (cellMask : List Bool) : List Bool :=
  particleCellIndices.map (fun c => cellMask.getD c false)

/-- Modelled from the spec: the device wrapper `sortByKey(keys, values, n)` is defined
outside `src/`; it reorders `values` by ascending `keys`. Equal keys keep their order
here; `gridSort` only passes keys that are pairwise distinct. -/
def sortByKey {β : Type} (keys : List Nat) (values : List β) : List β :=
  ((keys.zip values).insertionSort (fun a b => a.1 ≤ b.1)).map Prod.snd

/-- Modelled from the spec: the device wrapper `countByPred(mask, n, value)` is defined
outside `src/`; the design document lists it as "countTrue(mask, n) → count". -/
def countByPred (mask : List Bool) (value : Bool) : Nat :=
  mask.count value

/-- Modelled from the spec: the device wrapper `copyIfStencilTrue(src, n, stencil, dst)` is
defined outside `src/`; the design document lists it as a stable compaction by predicate:
entry `j < n` of `src` is copied, in order, when entry `j` of the stencil is set. -/
def copyIfStencilTrue {α : Type} (src : List α) (n : Nat) (stencil : List Bool) : List α :=
  (((src.take n).zip stencil).filter (fun p => p.2)).map Prod.fst

/-- What the partition branch of `gridSort` leaves in the state (`sort.cpp` lines
274-288): `state.numQueries`, the buffer installed as `state.params.queries`, the length
of the freshly allocated `state.h_queries`, and the indices at which that host buffer is
read afterwards. -/
structure PartitionResult (α : Type) where
  numQueries : Nat
  queries : List α
  h_queries_length : Nat
  h_queries_reads : List Nat

/-- The partition branch of `gridSort` (`sort.cpp` lines 239-288), in the order of its
statements. `queries` is the buffer `state.params.queries` on entry, of `N` particles
(with `samepq` it is the particle buffer that line 300 sorts only afterwards), and
`cellMask` is `state.cellMask` as `genMask` left it. The `printf` of line 288 reads
element `1192803` of `state.h_queries` three times. -/
def gridSortPartition {α : Type} (queries : List α) (N : Nat)
    (particleCellIndices cellParticleCounts localSortedIndices : List Nat)
    (cellMask : List Bool) : PartitionResult α :=
  let d_posInSortedPoints :=
    posInSortedPoints particleCellIndices cellParticleCounts localSortedIndices
  let d_rayMask := rayMaskOfCells particleCellIndices cellMask
  let d_rayMaskSorted := sortByKey d_posInSortedPoints d_rayMask
  let numOfActiveQueries := countByPred d_rayMaskSorted true
  let d_curQs := copyIfStencilTrue queries N d_rayMaskSorted
  { numQueries := numOfActiveQueries
    queries := d_curQs
    h_queries_length := numOfActiveQueries
    h_queries_reads := [1192803, 1192803, 1192803] }

/-- The design document's compaction: the queries whose own cell is active in the cell
mask, in their order. -/
def activeQueries {α : Type} (queries : List α) (particleCellIndices : List Nat)
    (cellMask : List Bool) : List α :=
  ((queries.zip particleCellIndices).filter (fun p => cellMask.getD p.2 false)).map Prod.fst

/-- Radius `5`, cell ratio `1`, `k = 2`: `maxWidth` is `7` and only ring `0` fits. -/
def paramsRingZeroTwo : MaskParams :=
  { knn := 2, maxWidth := 7, width := fun i => (2 * (i : Int) + 1) * 5 }

/-! ### `search.cpp`: the launches -/

/-- The launch parameters `state.params` that `search` and `initialTraversal` write. The
reorder map is a device pointer, `none` standing for `nullptr`. -/
structure Params (R : Type) where
  limit : Nat
  d_r2q_map : Option Nat
  isApprox : Bool
  radius : R
  deriving DecidableEq, Repr

/-- The fields of `WhittedState` that `search` and `initialTraversal` read or write
(`search.cpp` lines 9-74). -/
structure SearchState (R : Type) where
  knn : Nat
  qGasSortMode : Nat
  toGather : Bool
  numActQueries : Nat → Nat
  launchRadius : Nat → R
  d_r2q_map : Nat → Option Nat
  params : Params R

/-- A call of `launchSubframe`: the batch, the launch parameters in force, and the
number of entries requested for the output buffer. -/
structure Launch (R : Type) where
  batch_id : Nat
  params : Params R
  outputEntries : Nat
  deriving DecidableEq, Repr

/-- The function `search` (`search.cpp` lines 9-55): the state it leaves and the launch it
issues. `numQueries * state.params.limit` is a product of `unsigned int` values. -/
def search {R : Type} (state : SearchState R) (batch_id : Nat) : SearchState R × Launch R :=
  let numQueries := state.numActQueries batch_id
  let params1 : Params R := { state.params with limit := state.knn }
  let outputEntries := uintMul numQueries params1.limit
  let params2 : Params R :=
    { params1 with
      d_r2q_map :=
        if state.qGasSortMode ≠ 0 ∧ state.toGather = false then state.d_r2q_map batch_id
        else none }
  let params3 : Params R := { params2 with isApprox := false }
  let params4 : Params R := { params3 with radius := state.launchRadius batch_id }
  ({ state with params := params4 },
    { batch_id := batch_id, params := params4, outputEntries := outputEntries })

/-- The function `initialTraversal` (`search.cpp` lines 57-74). -/
def initialTraversal {R : Type} (state : SearchState R) (batch_id : Nat) :
    SearchState R × Launch R :=
  let numQueries := state.numActQueries batch_id
  let params1 : Params R := { state.params with limit := 1 }
  let outputEntries := uintMul numQueries params1.limit
  let params2 : Params R := { params1 with d_r2q_map := none }
  let params3 : Params R := { params2 with isApprox := true }
  let params4 : Params R := { params3 with radius := state.launchRadius batch_id }
  ({ state with params := params4 },
    { batch_id := batch_id, params := params4, outputEntries := outputEntries })

/-- One batch of a hundred million queries, `k = 50`, launch parameters as a previous
approximate launch at another radius left them. -/
def stateManyQueries : SearchState ℚ :=
  { knn := 50, qGasSortMode := 2, toGather := false,
    numActQueries := fun _ => 100000000, launchRadius := fun _ => 3,
    d_r2q_map := fun b => some (1000 + b),
    params := { limit := 1, d_r2q_map := none, isApprox := true, radius := 7 } }

/-! ### `sort.cpp`, `sortQueriesByFHCoord` and `gatherQueries` -/

/-- A CUDA `float3` over a type `F` of coordinates. -/
structure float3 (F : Type) where
  x : F
  y : F
  z : F
  deriving DecidableEq, Repr

/-- Modelled from the spec: the device wrapper `gatherByKey(indices, src, dst, n)` is
defined outside `src/`; entry `i < n` of the output is entry `indices[i]` of `src`. A read
outside `src` is recorded as `none`. -/
def gatherByKey {β : Type} (indices : List Nat) (src : List β) (n : Nat) : List (Option β) :=
  (indices.take n).map (fun k => src[k]?)

/-- The table `h_orig_points_1d` of `sortQueriesByFHCoord` (`sort.cpp` lines 397-402):
`state.numQueries` entries, entry `i` being `state.h_points[i].z`. A read outside
`state.h_points` is recorded as `none`. -/
def origPoints1d {F : Type} (h_points : List (float3 F)) (numQueries : Nat) : List (Option F) :=
  (List.range numQueries).map (fun i => (h_points[i]?).map (fun p => p.z))

/-- The sort keys `d_key` of `sortQueriesByFHCoord` (`sort.cpp` line 412): the gather of
the table by the first-hit ids of the `state.numQueries` queries. -/
def sortQueriesByFHCoordKeys {F : Type} (h_points : List (float3 F)) (numQueries : Nat)
    (d_firsthit_idx : List Nat) : List (Option F) :=
  (gatherByKey d_firsthit_idx (origPoints1d h_points numQueries) numQueries).map
    (fun k => k.bind id)

/-- The function `gatherQueries` (`sort.cpp` lines 479-537) on the contents of the
buffers: the pair of `state.params.points` and `state.params.queries` it leaves (the host
buffers `state.h_points` and `state.h_queries` mirror them). -/
def gatherQueries {α : Type} (samepq reorderPoints : Bool) (d_indices : List Nat)
    (numQueries : Nat) (points queries : List α) : List (Option α) × List (Option α) :=
  let d_reordered_queries := gatherByKey d_indices queries numQueries
  (if samepq && reorderPoints then d_reordered_queries else points.map some,
    d_reordered_queries)

/-- Whether `gasSortSearch` (`search.cpp` lines 76-91) replaces the point buffers by the
gathered order: it calls `gatherQueries` when `toGather` is set, and `gatherQueries`
replaces the points when `samepq` and `reorderPoints` are set (`sort.cpp` line 530). -/
def gasSortSearchReordersPoints (toGather samepq reorderPoints : Bool) : Bool :=
  toGather && (samepq && reorderPoints)

/-- In trace `t`, a `createGeometry` of batch `i` is issued after the `gasSortSearch` of
batch `i` and before the `search` of batch `i`. -/
def RebuiltAfterGasSort {R : Type} (t : List (Call R)) (i : Nat) : Prop :=
  ∃ (pre mid post : List (Call R)) (r : R),
    t = pre ++ Call.gasSortSearch i :: mid ++ Call.search i :: post ∧
      Call.createGeometry i r ∈ mid

/-- One batch of five queries at radius `1`, locality sort by first-hit coordinate
(`qGasSortMode = 1`), `gsrRatio = 1`. -/
def stateUnitRatio : WhittedState ℚ :=
  { interleave := false, numOfBatches := 1, numActQueries := fun _ => 5,
    launchRadius := fun _ => 1, qGasSortMode := 1, gsrRatio := 1 }

/-! ### `genGridInfo` and `genMask`: further notions -/

/-- The least multiple of `m` that is at least `n`, for `m > 0`. -/
def leastMultipleGE (m n : Nat) : Nat :=
  ((n + m - 1) / m) * m

/-- The value an `int` takes when it is assigned the `unsigned int` value `v`. -/
def toInt32 (v : Nat) : Int :=
  if v % 2 ^ 32 < 2 ^ 31 then ((v % 2 ^ 32 : Nat) : Int) else ((v % 2 ^ 32 : Nat) : Int) - 2 ^ 32

/-- The centre index `int cellIndex = (x * GridDimension.y + y) * GridDimension.z + z` of
`genMask` (`sort.cpp` line 84), with which `h_CellParticleCounts` is read (line 85) and
`cellSearchSize` is written (lines 106 and 110). It agrees with `cellIndexOf` below
`2 ^ 31`. -/
def centreIndex (G : uint3) (x y z : Nat) : Int :=
  toInt32 (cellIndexOf G x y z)

/-- The value of an `int` used as the subscript of a `std::vector`, whose `size_type` has
64 bits on the platforms OptiX supports. -/
def toSizeT (i : Int) : Nat :=
  (i % 2 ^ 64).toNat

/-- An index is within an array of `n` entries. -/
def InBounds (i : Int) (n : Nat) : Prop :=
  0 ≤ i ∧ i < n

/-- A radius so small against the cell ratio (for instance radius `1e-20`, cell ratio `1`)
that `maxWidth` and the truncated width of every ring an `int` can index are `0`; `k = 10`. -/
def paramsTinyRadius : MaskParams :=
  { knn := 10, maxWidth := 0, width := fun _ => 0 }

instance (i : Int) (n : Nat) : Decidable (InBounds i n) :=
  inferInstanceAs (Decidable (0 ≤ i ∧ i < (n : Int)))

/-! ## Part II: theorems -/

/-! ### Lemmas on the scheduler -/

section Scheduler

variable {R : Type}

theorem filter_batch_bind (body : Nat → List (Call R))
    (hbody : ∀ j, ∀ c ∈ body j, c.batch = j) (n i : Nat) :
    callsOfBatch i ((List.range n).flatMap body) = if i < n then body i else [] := by
  induction n with
  | zero => simp [callsOfBatch]
  | succ n ih =>
    unfold callsOfBatch at ih ⊢
    rw [List.range_succ, List.flatMap_append, List.filter_append, ih]
    simp only [List.flatMap_cons, List.flatMap_nil, List.append_nil]
    by_cases h : i < n
    · have hne : n ≠ i := by omega
      have : List.filter (fun c => decide (c.batch = i)) (body n) = [] := by
        rw [List.filter_eq_nil_iff]
        intro c hc
        simp [hbody n c hc, hne]
      simp [h, this, Nat.lt_succ_of_lt h]
    · by_cases h2 : i = n
      · subst h2
        have : List.filter (fun c => decide (c.batch = i)) (body i) = body i := by
          rw [List.filter_eq_self]
          intro c hc
          simp [hbody i c hc]
        simp [this]
      · have hne : n ≠ i := fun h3 => h2 h3.symm
        have : List.filter (fun c => decide (c.batch = i)) (body n) = [] := by
          rw [List.filter_eq_nil_iff]
          intro c hc
          simp [hbody n c hc, hne]
        have h3 : ¬ i < n + 1 := by omega
        simp [h, this, h3]

theorem createGeometryRadii_callsOfBatch (i : Nat) (t : List (Call R)) :
    createGeometryRadii i (callsOfBatch i t) = createGeometryRadii i t := by
  unfold createGeometryRadii callsOfBatch
  rw [List.filterMap_filter]
  congr 1
  funext c
  cases c <;> simp [Call.batch]
  intro h1
  simp [h1]

variable [Div R] [One R] [DecidableEq R]

theorem sequential_calls_of_batch (state : WhittedState R) (i : Nat) :
    callsOfBatch i (mainSequential state) =
      if i < state.numOfBatches.toNat then sequentialBody state i else [] := by
  unfold mainSequential forBatches
  apply filter_batch_bind
  intro j c hc
  unfold sequentialBody at hc
  split_ifs at hc <;> simp only [List.mem_append, List.mem_cons, List.mem_singleton,
    List.not_mem_nil, or_false, false_or, List.append_nil, List.cons_append, List.nil_append] at hc
  all_goals rcases hc with rfl | rfl | rfl | rfl <;> rfl

theorem interleaved_phases_eq_sequentialBody (state : WhittedState R) (i : Nat) :
    interleavedBuild state i ++ interleavedGasSort state i ++ interleavedRebuild state i
        ++ interleavedSearch state i = sequentialBody state i := by
  unfold interleavedBuild interleavedGasSort interleavedRebuild interleavedSearch sequentialBody
  split_ifs <;> simp_all

theorem interleaved_calls_of_batch (state : WhittedState R) (i : Nat) :
    callsOfBatch i (mainInterleaved state) =
      if i < state.numOfBatches.toNat then sequentialBody state i else [] := by
  have h1 := filter_batch_bind (interleavedBuild state) (by
    intro j c hc
    unfold interleavedBuild at hc
    split_ifs at hc <;> simp at hc; simp [hc, Call.batch]) state.numOfBatches.toNat i
  have h2 := filter_batch_bind (interleavedGasSort state) (by
    intro j c hc
    unfold interleavedGasSort at hc
    split_ifs at hc <;> simp at hc; simp [hc, Call.batch]) state.numOfBatches.toNat i
  have h3 := filter_batch_bind (interleavedRebuild state) (by
    intro j c hc
    unfold interleavedRebuild at hc
    split_ifs at hc <;> simp at hc; simp [hc, Call.batch]) state.numOfBatches.toNat i
  have h4 := filter_batch_bind (interleavedSearch state) (by
    intro j c hc
    unfold interleavedSearch at hc
    split_ifs at hc <;> simp at hc; simp [hc, Call.batch]) state.numOfBatches.toNat i
  unfold callsOfBatch at h1 h2 h3 h4 ⊢
  unfold mainInterleaved forBatches
  rw [List.filter_append, List.filter_append, List.filter_append, h1, h2, h3, h4]
  split_ifs
  · exact interleaved_phases_eq_sequentialBody state i
  · rfl

theorem sequentialBody_active (state : WhittedState R) (i : Nat)
    (ha : state.numActQueries i ≠ 0) :
    sequentialBody state i =
      Call.createGeometry i (state.launchRadius i / state.gsrRatio) ::
        ((if state.qGasSortMode ≠ 0 then
            Call.gasSortSearch i ::
              (if state.gsrRatio ≠ 1 then [Call.createGeometry i (state.launchRadius i)]
               else [])
          else []) ++ [Call.search i]) := by
  unfold sequentialBody
  rw [if_neg ha]
  split_ifs <;> simp

/-! ### The claims on the scheduler -/

/-- C1: for every state and every batch `i`, the calls that the interleaved ordering of
`main` issues for batch `i` are, call for call and in the same order, the calls that the
sequential ordering issues for batch `i`. -/
theorem interleaved_batch_calls_eq_sequential (state : WhittedState R) (i : Nat) :
    callsOfBatch i (mainInterleaved state) = callsOfBatch i (mainSequential state) := by
  rw [interleaved_calls_of_batch, sequential_calls_of_batch]

/-- C3: for every batch `i` with a non-zero active-query count, in both orderings of
`main`, the first `createGeometry` of batch `i` receives `launchRadius[i] / gsrRatio` and
every later `createGeometry` of batch `i` receives `launchRadius[i]`; when
`gsrRatio != 1` and the locality sort is on there is exactly one later call. -/
theorem createGeometry_radii (state : WhittedState R) (i : Nat)
    (hg : state.gsrRatio ≠ 1)
    (hi : (i : Int) < state.numOfBatches) (ha : state.numActQueries i ≠ 0) :
    ∃ later : List R,
      createGeometryRadii i (mainSequential state) =
          (state.launchRadius i / state.gsrRatio) :: later ∧
        createGeometryRadii i (mainInterleaved state) =
          (state.launchRadius i / state.gsrRatio) :: later ∧
        (∀ r ∈ later, r = state.launchRadius i) ∧
        (state.qGasSortMode ≠ 0 → later = [state.launchRadius i]) := by
  have hi2 : i < state.numOfBatches.toNat := Int.lt_toNat.mpr hi
  have hbody := sequentialBody_active state i ha
  refine ⟨if state.qGasSortMode ≠ 0 then [state.launchRadius i] else [], ?_, ?_, ?_, ?_⟩
  · rw [← createGeometryRadii_callsOfBatch, sequential_calls_of_batch, if_pos hi2, hbody]
    unfold createGeometryRadii
    split_ifs <;> simp_all
  · rw [← createGeometryRadii_callsOfBatch, interleaved_calls_of_batch, if_pos hi2, hbody]
    unfold createGeometryRadii
    split_ifs <;> simp_all
  · intro r hr
    split_ifs at hr <;> simp_all
  · intro hq
    simp [hq]

theorem createGeometry_radii_witness :
    ∃ later : List ℚ,
      createGeometryRadii 2 (mainSequential stateThreeBatches) = (3 / 2) :: later ∧
        createGeometryRadii 2 (mainInterleaved stateThreeBatches) = (3 / 2) :: later ∧
        (∀ r ∈ later, r = 3) ∧ later = [3] := by
  obtain ⟨later, h1, h2, h3, h4⟩ := createGeometry_radii stateThreeBatches 2
    (by norm_num [stateThreeBatches]) (by norm_num [stateThreeBatches])
    (by norm_num [stateThreeBatches])
  have hr : stateThreeBatches.launchRadius 2 = 3 := by norm_num [stateThreeBatches]
  have hgs : stateThreeBatches.gsrRatio = 2 := rfl
  rw [hr, hgs] at h1 h2
  rw [hr] at h3 h4
  exact ⟨later, h1, h2, h3, h4 (by norm_num [stateThreeBatches])⟩

/-- C4: a batch whose active-query count is zero receives no call at all (no
`createGeometry`, no `gasSortSearch`, no `search`), in the interleaved ordering (the four
phase loops together) and in the sequential ordering alike. -/
theorem no_calls_for_empty_batch (state : WhittedState R) (i : Nat)
    (h0 : state.numActQueries i = 0) :
    (∀ c ∈ mainInterleaved state, c.batch ≠ i) ∧
      (∀ c ∈ mainSequential state, c.batch ≠ i) ∧ ∀ c ∈ mainCalls state, c.batch ≠ i := by
  have hbody : sequentialBody state i = [] := by simp [sequentialBody, h0]
  have h1 : ∀ c ∈ mainInterleaved state, c.batch ≠ i := by
    have h := interleaved_calls_of_batch state i
    rw [hbody, ite_self] at h
    unfold callsOfBatch at h
    rw [List.filter_eq_nil_iff] at h
    intro c hc
    simpa using h c hc
  have h2 : ∀ c ∈ mainSequential state, c.batch ≠ i := by
    have h := sequential_calls_of_batch state i
    rw [hbody, ite_self] at h
    unfold callsOfBatch at h
    rw [List.filter_eq_nil_iff] at h
    intro c hc
    simpa using h c hc
  refine ⟨h1, h2, ?_⟩
  unfold mainCalls
  split_ifs
  · exact h1
  · exact h2

theorem no_calls_for_empty_batch_witness :
    (∀ c ∈ mainInterleaved stateThreeBatches, c.batch ≠ 1) ∧
      (∀ c ∈ mainSequential stateThreeBatches, c.batch ≠ 1) ∧
      ∀ c ∈ mainCalls stateThreeBatches, c.batch ≠ 1 :=
  no_calls_for_empty_batch stateThreeBatches 1 (by simp [stateThreeBatches])

end Scheduler

/-! ### `gridSort`: the sorted positions -/

theorem sum_count_range (l : List Nat) (M : Nat) (h : ∀ x ∈ l, x < M) :
    ∑ c in Finset.range M, l.count c = l.length := by
  induction l with
  | nil => simp
  | cons a l ih =>
    have ha : a < M := h a (List.mem_cons_self _ _)
    have hl : ∀ x ∈ l, x < M := fun x hx => h x (List.mem_cons_of_mem _ hx)
    simp only [List.count_cons, Finset.sum_add_distrib, ih hl, List.length_cons]
    congr 1
    simp [Finset.sum_ite_eq, ha]

theorem sum_take_eq (l : List Nat) : ∀ c, c ≤ l.length →
    (l.take c).sum = ∑ i in Finset.range c, l.getD i 0 := by
  intro c
  induction c with
  | zero => simp
  | succ c ih =>
    intro hc
    have hc2 : c < l.length := hc
    rw [List.sum_take_succ l c hc2, Finset.sum_range_succ, ih (Nat.le_of_lt hc2),
      List.getD_eq_getElem l 0 hc2]

theorem offsets_core (N M : Nat) (cell rank count : Nat → Nat)
    (hcell : ∀ i < N, cell i < M)
    (hlt : ∀ i < N, rank i < count (cell i))
    (hinj : ∀ i < N, ∀ j < N, cell i = cell j → rank i = rank j → i = j)
    (htotal : ∑ c in Finset.range M, count c = N) :
    (∀ i < N, (∑ c in Finset.range (cell i), count c) + rank i < N) ∧
      (∀ i < N, ∀ j < N,
        (∑ c in Finset.range (cell i), count c) + rank i =
          (∑ c in Finset.range (cell j), count c) + rank j → i = j) := by
  have hmono : Monotone (fun c => ∑ c2 in Finset.range c, count c2) := by
    apply monotone_nat_of_le_succ
    intro n
    simp [Finset.sum_range_succ]
  have hstep : ∀ a b, a < b →
      (∑ c in Finset.range a, count c) + count a ≤ ∑ c in Finset.range b, count c := by
    intro a b hab
    rw [← Finset.sum_range_succ]
    exact hmono hab
  constructor
  · intro i hi
    have h1 := hlt i hi
    have h2 : (∑ c in Finset.range (cell i), count c) + count (cell i)
        ≤ ∑ c in Finset.range M, count c := hstep _ _ (hcell i hi)
    omega
  · intro i hi j hj heq
    have hc : cell i = cell j := by
      rcases Nat.lt_trichotomy (cell i) (cell j) with h | h | h
      · have := hstep _ _ h
        have := hlt i hi
        omega
      · exact h
      · have := hstep _ _ h
        have := hlt j hj
        omega
    rw [hc] at heq
    exact hinj i hi j hj hc (by omega)

theorem posInSortedPoints_getD (cells counts ranks : List Nat)
    (hlen : ranks.length = cells.length) (i : Nat) (hi : i < cells.length)
    (hc : cells.getD i 0 < counts.length) :
    (posInSortedPoints cells counts ranks).getD i 0 =
      ((counts.take (cells.getD i 0)).sum % 2 ^ 32 + ranks.getD i 0) % 2 ^ 32 := by
  unfold posInSortedPoints kCountingSortIndices exclusiveScan
  have hi2 : i < ranks.length := by omega
  rw [List.getD_eq_getElem _ _ (by simp [hlen, hi]), List.getElem_zipWith]
  rw [← List.getD_eq_getElem cells 0 hi, ← List.getD_eq_getElem ranks 0 hi2]
  rw [List.getD_eq_getElem _ _ (by simpa using hc)]
  simp

/-- C5: take `N` particles (`N` an `unsigned int`) with cell indices below the number of
cells, per-cell counts equal to the number of particles in each cell, and intra-cell ranks
that, within each cell, are a rearrangement of `0, ..., count - 1` (every value of
`[0, count)` taken exactly once). Then the sorted positions that `gridSort` computes,
exclusive-scan offset of the cell plus intra-cell rank, are a bijection from the `N`
particles onto `[0, N)`: each position is below `N`, distinct particles get distinct
positions, and every position below `N` is taken. -/
theorem gridSort_positions_bijective (cells counts ranks : List Nat)
    (hlen : ranks.length = cells.length)
    (hN : cells.length < 2 ^ 32)
    (hcell : ∀ c ∈ cells, c < counts.length)
    (hcount : ∀ c, c < counts.length → counts.getD c 0 = cells.count c)
    (hrank : ∀ c, c < counts.length →
      (((List.range cells.length).filter (fun i => cells.getD i 0 = c)).map
        (fun i => ranks.getD i 0)).Perm (List.range (counts.getD c 0))) :
    (posInSortedPoints cells counts ranks).length = cells.length ∧
      (∀ i, i < cells.length → (posInSortedPoints cells counts ranks).getD i 0 < cells.length) ∧
      (∀ i, i < cells.length → ∀ j, j < cells.length →
        (posInSortedPoints cells counts ranks).getD i 0 =
          (posInSortedPoints cells counts ranks).getD j 0 → i = j) ∧
      (∀ p, p < cells.length →
        ∃ i, i < cells.length ∧ (posInSortedPoints cells counts ranks).getD i 0 = p) := by
  set N := cells.length with hNdef
  set M := counts.length with hMdef
  have hcellM : ∀ i < N, cells.getD i 0 < M := by
    intro i hi
    rw [List.getD_eq_getElem cells 0 hi]
    exact hcell _ (List.getElem_mem _)
  have hmemfilter : ∀ i < N, i ∈ (List.range N).filter (fun k => cells.getD k 0 = cells.getD i 0) := by
    intro i hi
    rw [List.mem_filter]
    exact ⟨List.mem_range.mpr hi, decide_eq_true rfl⟩
  have hlt : ∀ i < N, ranks.getD i 0 < counts.getD (cells.getD i 0) 0 := by
    intro i hi
    have hp := hrank _ (hcellM i hi)
    have hm : ranks.getD i 0 ∈ ((List.range N).filter
        (fun k => cells.getD k 0 = cells.getD i 0)).map (fun k => ranks.getD k 0) :=
      List.mem_map_of_mem _ (hmemfilter i hi)
    have := (hp.mem_iff).mp hm
    simpa using this
  have hinj : ∀ i < N, ∀ j < N, cells.getD i 0 = cells.getD j 0 →
      ranks.getD i 0 = ranks.getD j 0 → i = j := by
    intro i hi j hj hc hr
    have hp := hrank _ (hcellM i hi)
    have hnd : (((List.range N).filter (fun k => cells.getD k 0 = cells.getD i 0)).map
        (fun k => ranks.getD k 0)).Nodup := (hp.nodup_iff).mpr (List.nodup_range _)
    have hj2 : j ∈ (List.range N).filter (fun k => cells.getD k 0 = cells.getD i 0) := by
      rw [List.mem_filter]
      exact ⟨List.mem_range.mpr hj, decide_eq_true hc.symm⟩
    exact List.inj_on_of_nodup_map hnd (hmemfilter i hi) hj2 hr
  have htotal : ∑ c in Finset.range M, counts.getD c 0 = N := by
    refine Eq.trans ?_ (sum_count_range cells M hcell)
    apply Finset.sum_congr rfl
    intro c hc
    exact hcount c (Finset.mem_range.mp hc)
  obtain ⟨hbound, hinj2⟩ := offsets_core N M (fun i => cells.getD i 0) (fun i => ranks.getD i 0)
    (fun c => counts.getD c 0) hcellM hlt hinj htotal
  have hpos : ∀ i < N, (posInSortedPoints cells counts ranks).getD i 0 =
      (∑ c in Finset.range (cells.getD i 0), counts.getD c 0) + ranks.getD i 0 := by
    intro i hi
    rw [posInSortedPoints_getD cells counts ranks hlen i hi (hcellM i hi),
      sum_take_eq counts _ (Nat.le_of_lt (hcellM i hi))]
    have hb := hbound i hi
    simp only at hb
    have h1 : (∑ c in Finset.range (cells.getD i 0), counts.getD c 0) < 2 ^ 32 := by omega
    rw [Nat.mod_eq_of_lt h1, Nat.mod_eq_of_lt (by omega)]
  have hlenpos : (posInSortedPoints cells counts ranks).length = N := by
    simp [posInSortedPoints, kCountingSortIndices, hlen, hNdef]
  have hB : ∀ i, i < N → (posInSortedPoints cells counts ranks).getD i 0 < N := by
    intro i hi
    rw [hpos i hi]
    exact hbound i hi
  have hI : ∀ i, i < N → ∀ j, j < N →
      (posInSortedPoints cells counts ranks).getD i 0 =
        (posInSortedPoints cells counts ranks).getD j 0 → i = j := by
    intro i hi j hj h
    rw [hpos i hi, hpos j hj] at h
    exact hinj2 i hi j hj h
  refine ⟨hlenpos, hB, hI, ?_⟩
  intro p hp
  have himg : (Finset.range N).image (fun i => (posInSortedPoints cells counts ranks).getD i 0)
      = Finset.range N := by
    apply Finset.eq_of_subset_of_card_le
    · intro q hq
      obtain ⟨i, hi, rfl⟩ := Finset.mem_image.mp hq
      exact Finset.mem_range.mpr (hB i (Finset.mem_range.mp hi))
    · rw [Finset.card_image_of_injOn]
      intro i hi j hj h
      exact hI i (Finset.mem_range.mp hi) j (Finset.mem_range.mp hj) h
  have : p ∈ (Finset.range N).image
      (fun i => (posInSortedPoints cells counts ranks).getD i 0) := by
    rw [himg]; exact Finset.mem_range.mpr hp
  obtain ⟨i, hi, rfl⟩ := Finset.mem_image.mp this
  exact ⟨i, Finset.mem_range.mp hi, rfl⟩

theorem gridSort_positions_bijective_witness :
    (posInSortedPoints [2, 0, 2, 1, 0] [2, 1, 2] [1, 0, 0, 0, 1]).length = 5 ∧
      (∀ i, i < 5 → (posInSortedPoints [2, 0, 2, 1, 0] [2, 1, 2] [1, 0, 0, 0, 1]).getD i 0 < 5) ∧
      (∀ i, i < 5 → ∀ j, j < 5 →
        (posInSortedPoints [2, 0, 2, 1, 0] [2, 1, 2] [1, 0, 0, 0, 1]).getD i 0 =
          (posInSortedPoints [2, 0, 2, 1, 0] [2, 1, 2] [1, 0, 0, 0, 1]).getD j 0 → i = j) ∧
      (∀ p, p < 5 →
        ∃ i, i < 5 ∧ (posInSortedPoints [2, 0, 2, 1, 0] [2, 1, 2] [1, 0, 0, 0, 1]).getD i 0 = p) :=
  gridSort_positions_bijective [2, 0, 2, 1, 0] [2, 1, 2] [1, 0, 0, 0, 1] (by decide)
    (by decide) (by decide) (by decide) (by decide)

/-! ### `genGridInfo`: grid and meta-grid sizing -/

theorem genGridInfo_meta_grid_dim (dim0 : uint3) :
    (genGridInfo dim0).2.meta_grid_dim = min dim0.x (min dim0.y dim0.z) := rfl

theorem genGridInfo_GridDimension (dim0 : uint3) :
    (genGridInfo dim0).2.GridDimension =
      { x := uintMul (genGridInfo dim0).2.MetaGridDimension.x (genGridInfo dim0).2.meta_grid_dim
        y := uintMul (genGridInfo dim0).2.MetaGridDimension.y (genGridInfo dim0).2.meta_grid_dim
        z := uintMul (genGridInfo dim0).2.MetaGridDimension.z
          (genGridInfo dim0).2.meta_grid_dim } := rfl

theorem uintMul_of_lt (a b : Nat) (h : a * b < 2 ^ 32) : uintMul a b = a * b :=
  Nat.mod_eq_of_lt h

/-- As long as no product `MetaGridDimension * meta_grid_dim` leaves the 32-bit range, the
final per-axis cell counts are multiples of `meta_grid_dim`. -/
theorem genGridInfo_dimension_multiple_of_fits (dim0 : uint3)
    (hx : (genGridInfo dim0).2.MetaGridDimension.x * (genGridInfo dim0).2.meta_grid_dim < 2 ^ 32)
    (hy : (genGridInfo dim0).2.MetaGridDimension.y * (genGridInfo dim0).2.meta_grid_dim < 2 ^ 32)
    (hz : (genGridInfo dim0).2.MetaGridDimension.z * (genGridInfo dim0).2.meta_grid_dim < 2 ^ 32) :
    (genGridInfo dim0).2.meta_grid_dim ∣ (genGridInfo dim0).2.GridDimension.x ∧
      (genGridInfo dim0).2.meta_grid_dim ∣ (genGridInfo dim0).2.GridDimension.y ∧
      (genGridInfo dim0).2.meta_grid_dim ∣ (genGridInfo dim0).2.GridDimension.z := by
  rw [genGridInfo_GridDimension]
  simp only [uintMul_of_lt _ _ hx, uintMul_of_lt _ _ hy, uintMul_of_lt _ _ hz]
  exact ⟨Dvd.intro_left _ rfl, Dvd.intro_left _ rfl, Dvd.intro_left _ rfl⟩

/-- As long as the number of cells and the cube of `meta_grid_dim` stay in the 32-bit
range, the returned `numberOfCells` is the number of meta-grid blocks times
`meta_grid_dim ^ 3`. -/
theorem genGridInfo_cell_count_of_fits (dim0 : uint3)
    (hfit : (genGridInfo dim0).2.MetaGridDimension.x * (genGridInfo dim0).2.MetaGridDimension.y *
      (genGridInfo dim0).2.MetaGridDimension.z * (genGridInfo dim0).2.meta_grid_dim ^ 3 < 2 ^ 32)
    (hpos : 0 < (genGridInfo dim0).2.MetaGridDimension.x *
      (genGridInfo dim0).2.MetaGridDimension.y * (genGridInfo dim0).2.MetaGridDimension.z) :
    (genGridInfo dim0).1 =
      (genGridInfo dim0).2.MetaGridDimension.x * (genGridInfo dim0).2.MetaGridDimension.y *
        (genGridInfo dim0).2.MetaGridDimension.z * (genGridInfo dim0).2.meta_grid_dim ^ 3 := by
  simp only [genGridInfo] at hfit hpos ⊢
  set m := min dim0.x (min dim0.y dim0.z)
  set a := ceilfDiv dim0.x m
  set b := ceilfDiv dim0.y m
  set c := ceilfDiv dim0.z m
  have hm3 : m ^ 3 < 2 ^ 32 := by
    calc m ^ 3 = 1 * m ^ 3 := (Nat.one_mul _).symm
      _ ≤ a * b * c * m ^ 3 := Nat.mul_le_mul_right _ hpos
      _ < 2 ^ 32 := hfit
  have hm2 : m * m < 2 ^ 32 := by
    rcases Nat.eq_zero_or_pos m with h0 | hpm
    · rw [h0]; norm_num
    · calc m * m = m * m * 1 := (Nat.mul_one _).symm
        _ ≤ m * m * m := Nat.mul_le_mul_left _ hpm
        _ = m ^ 3 := by ring
        _ < 2 ^ 32 := hm3
  have hm3b : m * m * m < 2 ^ 32 := by
    have : m * m * m = m ^ 3 := by ring
    omega
  have hsize : uintMul (uintMul m m) m = m ^ 3 := by
    rw [uintMul_of_lt m m hm2, uintMul_of_lt _ _ hm3b]; ring
  rcases Nat.eq_zero_or_pos m with h0 | hpm
  · simp [h0, uintMul]
  have hm3pos : 0 < m ^ 3 := Nat.pow_pos hpm
  have habc : a * b * c < 2 ^ 32 := by
    calc a * b * c = a * b * c * 1 := (Nat.mul_one _).symm
      _ ≤ a * b * c * m ^ 3 := Nat.mul_le_mul_left _ hm3pos
      _ < 2 ^ 32 := hfit
  have hcpos : 0 < c := Nat.pos_of_ne_zero (fun h => by rw [h] at hpos; simp at hpos)
  have hab : a * b < 2 ^ 32 := by
    calc a * b = a * b * 1 := (Nat.mul_one _).symm
      _ ≤ a * b * c := Nat.mul_le_mul_left _ hcpos
      _ < 2 ^ 32 := habc
  rw [hsize, uintMul_of_lt a b hab, uintMul_of_lt _ _ habc, uintMul_of_lt _ _ hfit]

/-- C6, at the failing input: for the initial per-axis cell counts `(4294967040, 600, 600)`
(all positive) `genGridInfo` sets `meta_grid_dim = 600` and
`MetaGridDimension.x = 7158279`, and the 32-bit product `7158279 * 600` wraps to `104`,
which is stored as `GridDimension.x` and is not a multiple of `600`. -/
theorem genGridInfo_dimension_wraps :
    (genGridInfo ⟨4294967040, 600, 600⟩).2.meta_grid_dim = 600 ∧
      (genGridInfo ⟨4294967040, 600, 600⟩).2.MetaGridDimension.x = 7158279 ∧
      (genGridInfo ⟨4294967040, 600, 600⟩).2.GridDimension = ⟨104, 600, 600⟩ ∧
      ¬ (genGridInfo ⟨4294967040, 600, 600⟩).2.meta_grid_dim ∣
          (genGridInfo ⟨4294967040, 600, 600⟩).2.GridDimension.x := by
  decide

/-- C7, at the failing input: for the initial per-axis cell counts `(5000, 1000, 1000)`
`genGridInfo` sets `meta_grid_dim = 1000` and `MetaGridDimension = (5, 1, 1)`, so the grid
has `5 * 1000 ^ 3` cells, but the returned 32-bit `numberOfCells` is `705032704`, which
is not a multiple of `1000 ^ 3`. -/
theorem genGridInfo_cell_count_wraps :
    (genGridInfo ⟨5000, 1000, 1000⟩).2.meta_grid_dim = 1000 ∧
      (genGridInfo ⟨5000, 1000, 1000⟩).2.MetaGridDimension = ⟨5, 1, 1⟩ ∧
      (genGridInfo ⟨5000, 1000, 1000⟩).2.GridDimension = ⟨5000, 1000, 1000⟩ ∧
      (genGridInfo ⟨5000, 1000, 1000⟩).1 = 705032704 ∧
      (genGridInfo ⟨5000, 1000, 1000⟩).1 ≠ 5 * 1 * 1 * 1000 ^ 3 ∧
      ¬ (genGridInfo ⟨5000, 1000, 1000⟩).2.meta_grid_dim ^ 3 ∣
          (genGridInfo ⟨5000, 1000, 1000⟩).1 := by
  decide

/-! ### `genMask`: lemmas on ring sums, the ring loop and the cell loop -/

theorem mem_intRange (a b i : Int) : i ∈ intRange a b ↔ a ≤ i ∧ i ≤ b := by
  unfold intRange
  simp only [List.mem_map, List.mem_range]
  constructor
  · rintro ⟨t, ht, rfl⟩
    omega
  · rintro ⟨h1, h2⟩
    exact ⟨(i - a).toNat, by omega, by omega⟩

theorem nodup_intRange (a b : Int) : (intRange a b).Nodup := by
  unfold intRange
  apply List.Nodup.map _ (List.nodup_range _)
  intro s t hst
  simpa using hst

theorem sum_intRange (f : Int → Nat) (a b : Int) :
    ((intRange a b).map f).sum = ∑ i in Finset.Icc a b, f i := by
  rw [← List.sum_toFinset f (nodup_intRange a b)]
  apply Finset.sum_congr _ (fun _ _ => rfl)
  ext i
  simp [mem_intRange]

theorem ringSum_eq (h : List Nat) (G : uint3) (x y z iter : Nat) :
    ringSum h G x y z iter =
      ∑ ix in Finset.Icc ((x : Int) - iter) ((x : Int) + iter),
        ∑ iy in Finset.Icc ((y : Int) - iter) ((y : Int) + iter),
          ∑ iz in Finset.Icc ((z : Int) - iter) ((z : Int) + iter),
            neighbourCount h G ix iy iz := by
  unfold ringSum
  rw [sum_intRange]
  apply Finset.sum_congr rfl
  intro ix _
  rw [sum_intRange]
  apply Finset.sum_congr rfl
  intro iy _
  rw [sum_intRange]

theorem neighbourCount_le_ringSum (h : List Nat) (G : uint3) (x y z iter : Nat)
    (cx cy cz : Nat) (hx : cx ≤ x + iter ∧ x ≤ cx + iter) (hy : cy ≤ y + iter ∧ y ≤ cy + iter)
    (hz : cz ≤ z + iter ∧ z ≤ cz + iter) :
    neighbourCount h G cx cy cz ≤ ringSum h G x y z iter := by
  rw [ringSum_eq]
  have mx : (cx : Int) ∈ Finset.Icc ((x : Int) - iter) ((x : Int) + iter) := by
    rw [Finset.mem_Icc]; omega
  have my : (cy : Int) ∈ Finset.Icc ((y : Int) - iter) ((y : Int) + iter) := by
    rw [Finset.mem_Icc]; omega
  have mz : (cz : Int) ∈ Finset.Icc ((z : Int) - iter) ((z : Int) + iter) := by
    rw [Finset.mem_Icc]; omega
  calc neighbourCount h G cx cy cz
      ≤ ∑ iz in Finset.Icc ((z : Int) - iter) ((z : Int) + iter),
          neighbourCount h G cx cy iz :=
        Finset.single_le_sum (f := fun iz => neighbourCount h G cx cy iz)
          (fun _ _ => Nat.zero_le _) mz
    _ ≤ ∑ iy in Finset.Icc ((y : Int) - iter) ((y : Int) + iter),
          ∑ iz in Finset.Icc ((z : Int) - iter) ((z : Int) + iter),
            neighbourCount h G cx iy iz :=
        Finset.single_le_sum (f := fun iy => ∑ iz in Finset.Icc ((z : Int) - iter)
          ((z : Int) + iter), neighbourCount h G cx iy iz) (fun _ _ => Nat.zero_le _) my
    _ ≤ _ :=
        Finset.single_le_sum (f := fun ix => ∑ iy in Finset.Icc ((y : Int) - iter)
          ((y : Int) + iter), ∑ iz in Finset.Icc ((z : Int) - iter) ((z : Int) + iter),
            neighbourCount h G ix iy iz) (fun _ _ => Nat.zero_le _) mx

theorem neighbourCount_inGrid (h : List Nat) (G : uint3) (x y z : Nat)
    (hx : x < G.x) (hy : y < G.y) (hz : z < G.z) :
    neighbourCount h G x y z = h.getD (cellIndexOf G x y z) 0 := by
  unfold neighbourCount
  rw [if_neg]
  · simp
  · omega

theorem ringSum_zero (h : List Nat) (G : uint3) (x y z : Nat)
    (hx : x < G.x) (hy : y < G.y) (hz : z < G.z) :
    ringSum h G x y z 0 = h.getD (cellIndexOf G x y z) 0 := by
  rw [ringSum_eq]
  simp [neighbourCount_inGrid h G x y z hx hy hz]


theorem sum_Icc_le_sum_range (F : Int → Nat) (G : Nat) (a b : Int)
    (hF : ∀ i : Int, i < 0 ∨ i ≥ G → F i = 0) :
    ∑ i in Finset.Icc a b, F i ≤ ∑ x in Finset.range G, F (x : Int) := by
  have h1 : ∑ i in Finset.Icc a b, F i =
      ∑ i in (Finset.Icc a b).filter (fun i : Int => 0 ≤ i ∧ i < (G : Int)), F i := by
    symm
    apply Finset.sum_filter_of_ne
    intro i _ hne
    by_contra hcon
    exact hne (hF i (by omega))
  have h2 : ∑ x in Finset.range G, F (x : Int) =
      ∑ i in (Finset.range G).image (fun x : Nat => (x : Int)), F i := by
    rw [Finset.sum_image]
    intro s _ t _ hst
    exact_mod_cast hst
  rw [h1, h2]
  apply Finset.sum_le_sum_of_subset
  intro i hi
  rw [Finset.mem_filter] at hi
  rw [Finset.mem_image]
  exact ⟨i.toNat, Finset.mem_range.mpr (by omega), by omega⟩

theorem neighbourCount_outside (h : List Nat) (G : uint3) (ix iy iz : Int)
    (hout : ix < 0 ∨ ix ≥ G.x ∨ iy < 0 ∨ iy ≥ G.y ∨ iz < 0 ∨ iz ≥ G.z) :
    neighbourCount h G ix iy iz = 0 := by
  unfold neighbourCount
  rw [if_pos hout]

theorem ringSum_le_gridTotal (h : List Nat) (G : uint3) (x y z iter : Nat) :
    ringSum h G x y z iter ≤ gridTotal h G := by
  rw [ringSum_eq]
  unfold gridTotal
  refine le_trans (sum_Icc_le_sum_range _ G.x _ _ ?_) (Finset.sum_le_sum fun cx hcx => ?_)
  · intro i hi
    apply Finset.sum_eq_zero
    intro iy _
    apply Finset.sum_eq_zero
    intro iz _
    exact neighbourCount_outside h G i iy iz (by omega)
  refine le_trans (sum_Icc_le_sum_range _ G.y _ _ ?_) (Finset.sum_le_sum fun cy hcy => ?_)
  · intro i hi
    apply Finset.sum_eq_zero
    intro iz _
    exact neighbourCount_outside h G cx i iz (by omega)
  refine le_trans (sum_Icc_le_sum_range _ G.z _ _ ?_) (Finset.sum_le_sum fun cz hcz => ?_)
  · intro i hi
    exact neighbourCount_outside h G cx cy i (by omega)
  rw [neighbourCount_inGrid h G cx cy cz (Finset.mem_range.mp hcx) (Finset.mem_range.mp hcy)
    (Finset.mem_range.mp hcz)]

theorem sum_range_mul (f : Nat → Nat) (a b : Nat) :
    ∑ i in Finset.range (a * b), f i =
      ∑ x in Finset.range a, ∑ y in Finset.range b, f (x * b + y) := by
  induction a with
  | zero => simp
  | succ a ih =>
    rw [Nat.succ_mul, Finset.sum_range_add, ih, Finset.sum_range_succ]

theorem raster_lt (G : uint3) (x y z : Nat) (hx : x < G.x) (hy : y < G.y) (hz : z < G.z) :
    (x * G.y + y) * G.z + z < G.x * G.y * G.z := by
  have h1 : x * G.y + y + 1 ≤ G.x * G.y := by
    have : (x + 1) * G.y ≤ G.x * G.y := Nat.mul_le_mul_right _ hx
    rw [Nat.add_mul, Nat.one_mul] at this
    omega
  have h2 : (x * G.y + y + 1) * G.z ≤ G.x * G.y * G.z := Nat.mul_le_mul_right _ h1
  rw [Nat.add_mul, Nat.one_mul] at h2
  omega

theorem cellIndexOf_eq (G : uint3) (x y z : Nat) (hx : x < G.x) (hy : y < G.y) (hz : z < G.z)
    (h32 : G.x * G.y * G.z ≤ 2 ^ 32) :
    cellIndexOf G x y z = (x * G.y + y) * G.z + z := by
  unfold cellIndexOf
  apply Nat.mod_eq_of_lt
  have := raster_lt G x y z hx hy hz
  omega

theorem gridTotal_eq_sum (h : List Nat) (G : uint3) (h32 : G.x * G.y * G.z ≤ 2 ^ 32)
    (hlen : h.length = G.x * G.y * G.z) : gridTotal h G = h.sum := by
  unfold gridTotal
  have e1 : h.sum = ∑ i in Finset.range (G.x * G.y * G.z), h.getD i 0 := by
    rw [← hlen, ← sum_take_eq h h.length (le_refl _), List.take_length]
  rw [e1, Nat.mul_assoc, sum_range_mul]
  apply Finset.sum_congr rfl
  intro x hx
  rw [sum_range_mul]
  apply Finset.sum_congr rfl
  intro y hy
  apply Finset.sum_congr rfl
  intro z hz
  rw [cellIndexOf_eq G x y z (Finset.mem_range.mp hx) (Finset.mem_range.mp hy)
    (Finset.mem_range.mp hz) h32]
  congr 1
  ring

theorem cellIndexOf_inj (G : uint3) (h32 : G.x * G.y * G.z ≤ 2 ^ 32)
    (x y z x2 y2 z2 : Nat) (hx : x < G.x) (hy : y < G.y) (hz : z < G.z)
    (hx2 : x2 < G.x) (hy2 : y2 < G.y) (hz2 : z2 < G.z)
    (he : cellIndexOf G x y z = cellIndexOf G x2 y2 z2) : x = x2 ∧ y = y2 ∧ z = z2 := by
  rw [cellIndexOf_eq G x y z hx hy hz h32, cellIndexOf_eq G x2 y2 z2 hx2 hy2 hz2 h32] at he
  have hzz : z = z2 := by
    have h1 := congrArg (· % G.z) he
    simp only [Nat.mul_add_mod_of_lt hz, Nat.mul_add_mod_of_lt hz2] at h1
    simpa [Nat.add_comm, Nat.mul_comm, Nat.add_mul_mod_self_left, Nat.mod_eq_of_lt hz,
      Nat.mod_eq_of_lt hz2] using h1
  subst hzz
  have hGz : 0 < G.z := by omega
  have h2 : x * G.y + y = x2 * G.y + y2 := by
    have := Nat.add_right_cancel he
    exact Nat.eq_of_mul_eq_mul_right hGz this
  have hyy : y = y2 := by
    have h1 := congrArg (· % G.y) h2
    simpa [Nat.add_comm, Nat.mul_comm, Nat.add_mul_mod_self_left, Nat.mod_eq_of_lt hy,
      Nat.mod_eq_of_lt hy2] using h1
  subst hyy
  have hGy : 0 < G.y := by omega
  have h3 : x = x2 := Nat.eq_of_mul_eq_mul_right hGy (Nat.add_right_cancel h2)
  exact ⟨h3, rfl, rfl⟩


theorem ringSearch_some_succ (h : List Nat) (G : uint3) (p : MaskParams) (x y z : Nat) :
    ∀ fuel iter s, ringSearch h G p x y z fuel iter = some (s + 1) →
      iter ≤ s ∧ p.width s ≤ p.maxWidth ∧ p.knn ≤ ringCount h G x y z s := by
  intro fuel
  induction fuel with
  | zero => intro iter s hs; simp [ringSearch] at hs
  | succ fuel ih =>
    intro iter s hs
    unfold ringSearch at hs
    split_ifs at hs with h1 h2
    · simp at hs
    · have : iter = s := by simpa using hs
      subst this
      exact ⟨le_refl _, not_lt.mp h1, h2⟩
    · obtain ⟨h3, h4⟩ := ih (iter + 1) s hs
      exact ⟨by omega, h4⟩

theorem ringSearch_stops (h : List Nat) (G : uint3) (p : MaskParams) (x y z : Nat) :
    ∀ fuel iter J, iter ≤ J → J - iter < fuel →
      (p.width J > p.maxWidth ∨ p.knn ≤ ringCount h G x y z J) →
      ∃ s, ringSearch h G p x y z fuel iter = some s := by
  intro fuel
  induction fuel with
  | zero => intro iter J _ hf; omega
  | succ fuel ih =>
    intro iter J hJ hf hstop
    unfold ringSearch
    split_ifs with h1 h2
    · exact ⟨_, rfl⟩
    · exact ⟨_, rfl⟩
    · have hne : iter ≠ J := by
        rintro rfl
        rcases hstop with hs | hs
        · exact h1 hs
        · exact h2 hs
      exact ih (iter + 1) J (by omega) (by omega) hstop

theorem ringSearch_one (h : List Nat) (G : uint3) (p : MaskParams) (x y z fuel : Nat)
    (hw : p.width 0 ≤ p.maxWidth) (hk : p.knn ≤ ringCount h G x y z 0) :
    ringSearch h G p x y z (fuel + 1) 0 = some 1 := by
  unfold ringSearch
  rw [if_neg (not_lt.mpr hw), if_pos hk]

theorem genMaskLoop_length (h : List Nat) (G : uint3) (p : MaskParams) (fuel : Nat) :
    ∀ (cells : List (Nat × Nat × Nat)) (css css2 : List Nat),
      genMaskLoop h G p fuel cells css = some css2 → css2.length = css.length := by
  intro cells
  induction cells with
  | nil =>
    intro css css2 hl
    simp only [genMaskLoop, Option.some.injEq] at hl
    rw [← hl]
  | cons c rest ih =>
    obtain ⟨x, y, z⟩ := c
    intro css css2 hl
    unfold genMaskLoop at hl
    split_ifs at hl with h0
    · exact ih css css2 hl
    · cases hrs : ringSearch h G p x y z fuel 0 with
      | none => simp [hrs] at hl
      | some s =>
        simp only [hrs] at hl
        rw [ih _ css2 hl, List.length_set]

theorem genMaskLoop_isSome (h : List Nat) (G : uint3) (p : MaskParams) (fuel : Nat) :
    ∀ (cells : List (Nat × Nat × Nat)),
      (∀ x y z, (x, y, z) ∈ cells → h.getD (cellIndexOf G x y z) 0 ≠ 0 →
        ∃ s, ringSearch h G p x y z fuel 0 = some s) →
      ∀ css : List Nat, ∃ css2, genMaskLoop h G p fuel cells css = some css2 := by
  intro cells
  induction cells with
  | nil => intro _ css; exact ⟨css, rfl⟩
  | cons c rest ih =>
    obtain ⟨x, y, z⟩ := c
    intro hall css
    have hrest := ih (fun a b c hm => hall a b c (List.mem_cons_of_mem _ hm))
    unfold genMaskLoop
    split_ifs with h0
    · exact hrest css
    · obtain ⟨s, hs⟩ := hall x y z (List.mem_cons_self _ _) h0
      simp only [hs]
      exact hrest _

theorem genMaskLoop_getElem (h : List Nat) (G : uint3) (p : MaskParams) (fuel : Nat) :
    ∀ (cells : List (Nat × Nat × Nat)) (css css2 : List Nat),
      genMaskLoop h G p fuel cells css = some css2 → ∀ i, i < css.length →
        (css2[i]? = css[i]? ∧
            ∀ x y z, (x, y, z) ∈ cells → cellIndexOf G x y z = i → h.getD i 0 = 0) ∨
          ∃ x y z, (x, y, z) ∈ cells ∧ cellIndexOf G x y z = i ∧ h.getD i 0 ≠ 0 ∧
            css2[i]? = ringSearch h G p x y z fuel 0 := by
  intro cells
  induction cells with
  | nil =>
    intro css css2 hl i _
    simp only [genMaskLoop, Option.some.injEq] at hl
    left
    rw [hl]
    exact ⟨rfl, fun x y z hm => absurd hm (List.not_mem_nil _)⟩
  | cons c rest ih =>
    obtain ⟨x, y, z⟩ := c
    intro css css2 hl i hi
    unfold genMaskLoop at hl
    split_ifs at hl with h0
    · rcases ih css css2 hl i hi with ⟨h1, h2⟩ | ⟨a, b, c, hm, h1, h2, h3⟩
      · left
        refine ⟨h1, ?_⟩
        intro a b c hm hidx
        rcases List.mem_cons.mp hm with heq | hm2
        · simp only [Prod.mk.injEq] at heq
          obtain ⟨rfl, rfl, rfl⟩ := heq
          rw [← hidx]; exact h0
        · exact h2 a b c hm2 hidx
      · right
        exact ⟨a, b, c, List.mem_cons_of_mem _ hm, h1, h2, h3⟩
    · cases hrs : ringSearch h G p x y z fuel 0 with
      | none => simp [hrs] at hl
      | some s =>
        simp only [hrs] at hl
        have hi2 : i < (css.set (cellIndexOf G x y z) s).length := by
          rw [List.length_set]; exact hi
        rcases ih _ css2 hl i hi2 with ⟨h1, h2⟩ | ⟨a, b, c, hm, h1, h2, h3⟩
        · by_cases hidx : cellIndexOf G x y z = i
          · right
            refine ⟨x, y, z, List.mem_cons_self _ _, hidx, ?_, ?_⟩
            · rw [← hidx]; exact h0
            · rw [h1, hrs, List.getElem?_set, if_pos hidx, if_pos (by rw [hidx]; exact hi)]
          · left
            refine ⟨?_, ?_⟩
            · rw [h1, List.getElem?_set, if_neg hidx]
            · intro a b c hm hidx2
              rcases List.mem_cons.mp hm with heq | hm2
              · simp only [Prod.mk.injEq] at heq
                obtain ⟨rfl, rfl, rfl⟩ := heq
                exact absurd hidx2 hidx
              · exact h2 a b c hm2 hidx2
        · right
          exact ⟨a, b, c, List.mem_cons_of_mem _ hm, h1, h2, h3⟩

theorem mem_gridCells (G : uint3) (x y z : Nat) :
    (x, y, z) ∈ gridCells G ↔ x < G.x ∧ y < G.y ∧ z < G.z := by
  unfold gridCells
  simp only [List.mem_flatMap, List.mem_map, List.mem_range, Prod.mk.injEq]
  constructor
  · rintro ⟨a, ha, b, hb, c, hc, rfl, rfl, rfl⟩
    exact ⟨ha, hb, hc⟩
  · rintro ⟨hx, hy, hz⟩
    exact ⟨x, hx, y, hy, z, hz, rfl, rfl, rfl⟩


theorem genMask_cell (h : List Nat) (numberOfCells : Nat) (G : uint3) (p : MaskParams)
    (fuel : Nat) (res : MaskResult)
    (hcells : numberOfCells = G.x * G.y * G.z) (h32 : numberOfCells ≤ 2 ^ 31)
    (hres : genMask h numberOfCells G p fuel = some res)
    (x y z : Nat) (hx : x < G.x) (hy : y < G.y) (hz : z < G.z) :
    res.cellMask[cellIndexOf G x y z]? =
        (res.cellSearchSize[cellIndexOf G x y z]?).map (fun s => decide (s > 0 ∧ s ≤ 2)) ∧
      (h.getD (cellIndexOf G x y z) 0 = 0 →
        res.cellSearchSize[cellIndexOf G x y z]? = some 0) ∧
      (h.getD (cellIndexOf G x y z) 0 ≠ 0 →
        res.cellSearchSize[cellIndexOf G x y z]? = ringSearch h G p x y z fuel 0) := by
  unfold genMask at hres
  cases hl : genMaskLoop h G p fuel (gridCells G) (List.replicate numberOfCells 0) with
  | none => simp [hl] at hres
  | some css =>
    simp only [hl, Option.map_some', Option.some.injEq] at hres
    subst hres
    have hG : G.x * G.y * G.z ≤ 2 ^ 32 := by omega
    have hidx : cellIndexOf G x y z < (List.replicate numberOfCells 0).length := by
      rw [List.length_replicate, cellIndexOf_eq G x y z hx hy hz hG, hcells]
      exact raster_lt G x y z hx hy hz
    have hmem : (x, y, z) ∈ gridCells G := (mem_gridCells G x y z).mpr ⟨hx, hy, hz⟩
    have hinit : (List.replicate numberOfCells 0)[cellIndexOf G x y z]? = some 0 := by
      rw [List.getElem?_replicate, if_pos (by simpa using hidx)]
    refine ⟨by simp, ?_, ?_⟩
    · intro h0
      rcases genMaskLoop_getElem h G p fuel _ _ _ hl _ hidx with ⟨h1, -⟩ | ⟨a, b, c, -, -, h2, -⟩
      · show css[cellIndexOf G x y z]? = some 0
        rw [h1, hinit]
      · exact absurd h0 h2
    · intro hne
      rcases genMaskLoop_getElem h G p fuel _ _ _ hl _ hidx with ⟨-, h2⟩ | ⟨a, b, c, hm, h1, -, h3⟩
      · exact absurd (h2 x y z hmem rfl) hne
      · obtain ⟨ha, hb, hc⟩ := (mem_gridCells G a b c).mp hm
        obtain ⟨rfl, rfl, rfl⟩ := cellIndexOf_inj G hG a b c x y z ha hb hc hx hy hz h1
        exact h3

theorem genMask_returns (h : List Nat) (numberOfCells : Nat) (G : uint3) (p : MaskParams)
    (fuel : Nat)
    (hall : ∀ x y z, x < G.x → y < G.y → z < G.z → h.getD (cellIndexOf G x y z) 0 ≠ 0 →
      ∃ s, ringSearch h G p x y z fuel 0 = some s) :
    ∃ res, genMask h numberOfCells G p fuel = some res := by
  obtain ⟨css, hcss⟩ := genMaskLoop_isSome h G p fuel (gridCells G)
    (fun x y z hm hne => by
      obtain ⟨hx, hy, hz⟩ := (mem_gridCells G x y z).mp hm
      exact hall x y z hx hy hz hne)
    (List.replicate numberOfCells 0)
  exact ⟨_, by unfold genMask; rw [hcss]; rfl⟩

/-- C8, as stated, fails: with radius `10` and cell ratio `0.5` the width of ring `0` is
`20` and exceeds `maxWidth = 14`; the only cell holds `5 >= k = 3` particles, yet
`genMask` records search size `0` for it and marks it inactive, because the width test of
line 105 comes before the count test of line 109. -/
theorem genMask_ring0_rejected_when_too_wide :
    (1 : Nat) = 1 * 1 * 1 ∧ [5].getD (cellIndexOf ⟨1, 1, 1⟩ 0 0 0) 0 ≠ 0 ∧
      paramsWideCell.knn ≤ [5].getD (cellIndexOf ⟨1, 1, 1⟩ 0 0 0) 0 ∧
      paramsWideCell.maxWidth < paramsWideCell.width 0 ∧
      genMask [5] 1 ⟨1, 1, 1⟩ paramsWideCell 8 =
        some { cellSearchSize := [0], cellMask := [false] } := by
  decide

/-- C8, amended: for every well-formed grid with its count array (one count per cell,
their sum, the particle count `N`, being below `2 ^ 31` so that the `int count` of line 89
holds every ring sum), every target `k` and every nonempty cell whose own count is at
least `k`, provided the truncated width of ring `0` does not exceed `maxWidth`, `genMask`
returns (any fuel above the sum of the three grid dimensions is enough), classifies the
cell with search size `1` and sets its `cellMask` entry to `true`. -/
theorem genMask_ring0_active (h : List Nat) (numberOfCells : Nat) (G : uint3) (p : MaskParams)
    (hcells : numberOfCells = G.x * G.y * G.z) (h32 : numberOfCells ≤ 2 ^ 31)
    (hlen : h.length = numberOfCells) (hsum : h.sum < 2 ^ 31)
    (x y z : Nat) (hx : x < G.x) (hy : y < G.y) (hz : z < G.z)
    (hne : h.getD (cellIndexOf G x y z) 0 ≠ 0)
    (hk : p.knn ≤ h.getD (cellIndexOf G x y z) 0)
    (hw : p.width 0 ≤ p.maxWidth)
    (fuel : Nat) (hfuel : G.x + G.y + G.z < fuel) :
    ∃ res, genMask h numberOfCells G p fuel = some res ∧
      res.cellSearchSize[cellIndexOf G x y z]? = some 1 ∧
      res.cellMask[cellIndexOf G x y z]? = some true := by
  have hG : G.x * G.y * G.z ≤ 2 ^ 32 := by omega
  have hcount : ∀ a b c iter, ringCount h G a b c iter = ringSum h G a b c iter := by
    intro a b c iter
    unfold ringCount
    apply Nat.mod_eq_of_lt
    have h1 := ringSum_le_gridTotal h G a b c iter
    rw [gridTotal_eq_sum h G hG (by rw [hlen, hcells])] at h1
    omega
  obtain ⟨res, hres⟩ := genMask_returns h numberOfCells G p fuel (by
    intro a b c ha hb hc _
    apply ringSearch_stops h G p a b c fuel 0 (G.x + G.y + G.z) (Nat.zero_le _) (by omega)
    right
    rw [hcount]
    have h2 := neighbourCount_le_ringSum h G a b c (G.x + G.y + G.z) x y z
      (by omega) (by omega) (by omega)
    rw [neighbourCount_inGrid h G x y z hx hy hz] at h2
    omega)
  obtain ⟨hm, -, hs⟩ := genMask_cell h numberOfCells G p fuel res hcells h32 hres x y z hx hy hz
  have hone : ringSearch h G p x y z fuel 0 = some 1 := by
    obtain ⟨f, rfl⟩ : ∃ f, fuel = f + 1 := ⟨fuel - 1, by omega⟩
    apply ringSearch_one h G p x y z f hw
    rw [hcount, ringSum_zero h G x y z hx hy hz]
    exact hk
  refine ⟨res, hres, ?_, ?_⟩
  · rw [hs hne, hone]
  · rw [hm, hs hne, hone]
    rfl

theorem genMask_ring0_active_witness :
    ∃ res, genMask countsTwoCube 8 ⟨2, 2, 2⟩ paramsRingZero 7 = some res ∧
      res.cellSearchSize[cellIndexOf ⟨2, 2, 2⟩ 0 0 0]? = some 1 ∧
      res.cellMask[cellIndexOf ⟨2, 2, 2⟩ 0 0 0]? = some true :=
  genMask_ring0_active countsTwoCube 8 ⟨2, 2, 2⟩ paramsRingZero (by decide) (by decide)
    (by decide) (by decide) 0 0 0 (by decide) (by decide) (by decide) (by decide) (by decide)
    (by decide) 7 (by decide)

theorem sortByKey_perm {β : Type} (keys : List Nat) (values : List β)
    (hlen : values.length ≤ keys.length) : (sortByKey keys values).Perm values := by
  unfold sortByKey
  have h1 := (List.perm_insertionSort (fun a b : Nat × β => a.1 ≤ b.1) (keys.zip values)).map
    Prod.snd
  have h2 : (keys.zip values).map Prod.snd = values := List.map_snd_zip _ _ hlen
  rw [h2] at h1
  exact h1

/-- The count that the partition branch stores in `state.numQueries` is the number of
particles whose cell is active. -/
theorem gridSortPartition_numQueries {α : Type} (queries : List α) (N : Nat)
    (cells counts ranks : List Nat) (cellMask : List Bool)
    (hlen : ranks.length = cells.length) :
    (gridSortPartition queries N cells counts ranks cellMask).numQueries =
      (rayMaskOfCells cells cellMask).count true := by
  unfold gridSortPartition countByPred
  apply List.Perm.count_eq
  apply sortByKey_perm
  simp [rayMaskOfCells, posInSortedPoints, kCountingSortIndices, hlen]

/-- C11, at the failing input: three queries in cells `1, 0, 0` of a `1 x 1 x 2` grid whose
cell `0` is active and cell `1` inactive (as `genMask` classifies them for `k = 2`). The
sorted positions are `2, 0, 1`; `gridSort` sorts the ray mask by them but compacts the
query buffer before line 300 sorts it, so it installs the queries `10, 11`, of which `10`
lies in the inactive cell, and drops query `12` of the active cell. The queries whose own
cell is active are `11, 12`. Only the count, `2`, is the one the claim gives. -/
theorem gridSort_partition_keeps_wrong_queries :
    genMask [2, 1] 2 ⟨1, 1, 2⟩ paramsRingZeroTwo 4 =
        some { cellSearchSize := [1, 0], cellMask := [true, false] } ∧
      posInSortedPoints [1, 0, 0] [2, 1] [0, 0, 1] = [2, 0, 1] ∧
      (gridSortPartition [10, 11, 12] 3 [1, 0, 0] [2, 1] [0, 0, 1] [true, false]).queries =
        [10, 11] ∧
      activeQueries [10, 11, 12] [1, 0, 0] [true, false] = [11, 12] ∧
      (gridSortPartition [10, 11, 12] 3 [1, 0, 0] [2, 1] [0, 0, 1] [true, false]).numQueries =
        2 := by
  decide

/-- C18, at the failing input: in the run above the compacted host buffer
`state.h_queries` has `2` entries and `gridSort` reads it at index `1192803` (the `printf`
of line 288), which is not below `2`. -/
theorem gridSort_partition_reads_past_h_queries :
    (gridSortPartition [10, 11, 12] 3 [1, 0, 0] [2, 1] [0, 0, 1]
        [true, false]).h_queries_length = 2 ∧
      (gridSortPartition [10, 11, 12] 3 [1, 0, 0] [2, 1] [0, 0, 1]
        [true, false]).h_queries_reads = [1192803, 1192803, 1192803] ∧
      ¬ ∀ i ∈ (gridSortPartition [10, 11, 12] 3 [1, 0, 0] [2, 1] [0, 0, 1]
          [true, false]).h_queries_reads,
        i < (gridSortPartition [10, 11, 12] 3 [1, 0, 0] [2, 1] [0, 0, 1]
          [true, false]).h_queries_length := by
  decide

/-- Whatever the input of the partition branch, the read of line 288 is in range only
when more than `1192803` queries are active. -/
theorem gridSortPartition_reads_in_range_iff {α : Type} (queries : List α) (N : Nat)
    (cells counts ranks : List Nat) (cellMask : List Bool) :
    (∀ i ∈ (gridSortPartition queries N cells counts ranks cellMask).h_queries_reads,
        i < (gridSortPartition queries N cells counts ranks cellMask).h_queries_length) ↔
      1192803 < (gridSortPartition queries N cells counts ranks cellMask).numQueries := by
  simp [gridSortPartition]

/-! ### `search`: the launch parameters -/

/-- Whatever the launch parameters held before, `search` launches with `limit = knn`,
`isApprox = false`, `radius = launchRadius[batch_id]`, the reorder map of the batch when
the locality sort is on and the gather off and `nullptr` otherwise, and requests the
32-bit product `numActQueries[batch_id] * limit` of output entries. -/
theorem search_launch {R : Type} (state : SearchState R) (batch_id : Nat) :
    (search state batch_id).2 =
      { batch_id := batch_id
        params :=
          { limit := state.knn
            d_r2q_map :=
              if state.qGasSortMode ≠ 0 ∧ state.toGather = false then state.d_r2q_map batch_id
              else none
            isApprox := false
            radius := state.launchRadius batch_id }
        outputEntries := uintMul (state.numActQueries batch_id) state.knn } := rfl

/-- The launch of `search` is the same after an `initialTraversal` of any batch. -/
theorem search_launch_after_initialTraversal {R : Type} (state : SearchState R)
    (batch_id other : Nat) :
    (search (initialTraversal state other).1 batch_id).2 = (search state batch_id).2 := rfl

/-- As long as the product stays in the 32-bit range, the output buffer of `search` has
`numActQueries[batch_id] * knn` entries. -/
theorem search_outputEntries_of_fits {R : Type} (state : SearchState R) (batch_id : Nat)
    (hfit : state.numActQueries batch_id * state.knn < 2 ^ 32) :
    (search state batch_id).2.outputEntries = state.numActQueries batch_id * state.knn := by
  rw [search_launch]
  exact uintMul_of_lt _ _ hfit

/-- C12, at the failing input: for a batch of `100000000` queries and `k = 50`, after an
`initialTraversal`, `search` launches with `limit = 50`, `isApprox = false`, the radius
`3` of the batch and the reorder map of the batch, as claimed, but the output buffer it
requests has `705032704` entries, the 32-bit product, and not `100000000 * 50`. -/
theorem search_output_buffer_wraps :
    (search (initialTraversal stateManyQueries 0).1 0).2.params =
        { limit := 50, d_r2q_map := some 1000, isApprox := false, radius := 3 } ∧
      (search (initialTraversal stateManyQueries 0).1 0).2.outputEntries = 705032704 ∧
      (search (initialTraversal stateManyQueries 0).1 0).2.outputEntries ≠
        stateManyQueries.numActQueries 0 * stateManyQueries.knn := by
  refine ⟨rfl, ?_, ?_⟩ <;> decide

/-! ### `sortQueriesByFHCoord`: the sort keys -/

/-- When the first-hit id of query `i` is below both the number of queries and the number
of points, the key of query `i` is the `z` coordinate of the hit point. -/
theorem sortQueriesByFHCoordKeys_of_lt {F : Type} (h_points : List (float3 F))
    (numQueries : Nat) (d_firsthit_idx : List Nat) (i : Nat) (hi : i < numQueries)
    (hlen : numQueries ≤ d_firsthit_idx.length)
    (hq : d_firsthit_idx.getD i 0 < numQueries)
    (hp : d_firsthit_idx.getD i 0 < h_points.length) :
    (sortQueriesByFHCoordKeys h_points numQueries d_firsthit_idx)[i]? =
      some ((h_points[d_firsthit_idx.getD i 0]?).map (fun p => p.z)) := by
  have hi2 : i < d_firsthit_idx.length := by omega
  have hget : d_firsthit_idx.getD i 0 = d_firsthit_idx[i] := List.getD_eq_getElem _ _ hi2
  rw [hget] at hq hp ⊢
  unfold sortQueriesByFHCoordKeys gatherByKey origPoints1d
  simp only [List.getElem?_map, List.getElem?_take, hi, if_true]
  rw [List.getElem?_eq_getElem hi2]
  simp only [Option.map_some']
  rw [List.getElem?_range hq]
  simp [List.getElem?_eq_getElem hp]

/-- C13, at the failing input: three points with `z = 10, 20, 30`, two queries, the first
hit of query `0` being point `2`, a valid point id. The table `h_orig_points_1d` has
`numQueries = 2` entries, so the lookup of id `2` is out of its range and query `0` gets
no key from the table, while the key of query `1` (first hit `0`) is `10`. -/
theorem sortQueriesByFHCoord_lookup_out_of_range :
    (2 : Nat) < [(⟨1, 2, 10⟩ : float3 Nat), ⟨1, 2, 20⟩, ⟨1, 2, 30⟩].length ∧
      (origPoints1d [(⟨1, 2, 10⟩ : float3 Nat), ⟨1, 2, 20⟩, ⟨1, 2, 30⟩] 2).length = 2 ∧
      sortQueriesByFHCoordKeys [(⟨1, 2, 10⟩ : float3 Nat), ⟨1, 2, 20⟩, ⟨1, 2, 30⟩] 2 [2, 0] =
        [none, some 10] ∧
      (sortQueriesByFHCoordKeys [(⟨1, 2, 10⟩ : float3 Nat), ⟨1, 2, 20⟩, ⟨1, 2, 30⟩] 2
          [2, 0])[0]? ≠ some (some 30) := by
  decide

/-! ### `main` and `gasSortSearch`: rebuilding the index after a physical reorder -/

theorem filter_eq_append_triple {α : Type} (p : α → Bool) (x y z : α) :
    ∀ (a t : List α), t.filter p = a ++ [x, y, z] →
      ∃ pre mid post : List α, t = pre ++ x :: mid ++ z :: post ∧ y ∈ mid := by
  intro a
  induction a with
  | nil =>
    intro t h
    simp only [List.nil_append] at h
    obtain ⟨l1, l2, ht, -, -, h2⟩ := List.filter_eq_cons_iff.mp h
    obtain ⟨l3, l4, ht2, -, -, h3⟩ := List.filter_eq_cons_iff.mp h2
    obtain ⟨l5, l6, ht3, -, -, -⟩ := List.filter_eq_cons_iff.mp h3
    refine ⟨l1, l3 ++ y :: l5, l6, ?_, by simp⟩
    rw [ht, ht2, ht3]; simp
  | cons b a ih =>
    intro t h
    simp only [List.cons_append] at h
    obtain ⟨l1, l2, ht, -, -, h2⟩ := List.filter_eq_cons_iff.mp h
    obtain ⟨pre, mid, post, hl2, hmid⟩ := ih l2 h2
    refine ⟨l1 ++ b :: pre, mid, post, ?_, hmid⟩
    rw [ht, hl2]; simp

/-- When `gsrRatio != 1` and the locality sort is on, both orderings of `main` issue a
`createGeometry` of the batch between its `gasSortSearch` and its `search`. -/
theorem rebuilt_after_gas_sort_of_ratio {R : Type} [Div R] [One R] [DecidableEq R]
    (state : WhittedState R) (i : Nat)
    (hg : state.gsrRatio ≠ 1) (hq : state.qGasSortMode ≠ 0)
    (hi : (i : Int) < state.numOfBatches) (ha : state.numActQueries i ≠ 0) :
    RebuiltAfterGasSort (mainSequential state) i ∧
      RebuiltAfterGasSort (mainInterleaved state) i := by
  have hi2 : i < state.numOfBatches.toNat := Int.lt_toNat.mpr hi
  have hbody : sequentialBody state i =
      [Call.createGeometry i (state.launchRadius i / state.gsrRatio)]
        ++ [Call.gasSortSearch i, Call.createGeometry i (state.launchRadius i),
          Call.search i] := by
    rw [sequentialBody_active state i ha]
    simp [hq, hg]
  constructor
  · have h := sequential_calls_of_batch state i
    rw [if_pos hi2, hbody] at h
    obtain ⟨pre, mid, post, ht, hmid⟩ := filter_eq_append_triple _ _ _ _ _ _ h
    exact ⟨pre, mid, post, state.launchRadius i, ht, hmid⟩
  · have h := interleaved_calls_of_batch state i
    rw [if_pos hi2, hbody] at h
    obtain ⟨pre, mid, post, ht, hmid⟩ := filter_eq_append_triple _ _ _ _ _ _ h
    exact ⟨pre, mid, post, state.launchRadius i, ht, hmid⟩

/-- C14, at the failing input: locality sort by first-hit coordinate with `toGather`,
`samepq` and `reorderPoints` set, so that `gasSortSearch` replaces the points by the
gathered order (here `7, 8` becomes `8, 7`), and `gsrRatio = 1`. In both orderings `main`
issues `createGeometry`, `gasSortSearch`, `search` for the batch and nothing else: no
`createGeometry` comes between the reorder and the search. -/
theorem physical_reorder_without_rebuild :
    gasSortSearchReordersPoints true true true = true ∧
      gatherQueries true true [1, 0] 2 [7, 8] [7, 8] = ([some 8, some 7], [some 8, some 7]) ∧
      stateUnitRatio.qGasSortMode ≠ 0 ∧ stateUnitRatio.numActQueries 0 ≠ 0 ∧
      mainSequential stateUnitRatio =
        [Call.createGeometry 0 1, Call.gasSortSearch 0, Call.search 0] ∧
      mainInterleaved stateUnitRatio =
        [Call.createGeometry 0 1, Call.gasSortSearch 0, Call.search 0] ∧
      ¬ RebuiltAfterGasSort (mainSequential stateUnitRatio) 0 ∧
      ¬ RebuiltAfterGasSort (mainInterleaved stateUnitRatio) 0 := by
  have hs : mainSequential stateUnitRatio =
      [Call.createGeometry 0 1, Call.gasSortSearch 0, Call.search 0] := by
    simp [mainSequential, forBatches, sequentialBody, stateUnitRatio, List.range_succ]
  have hi : mainInterleaved stateUnitRatio =
      [Call.createGeometry 0 1, Call.gasSortSearch 0, Call.search 0] := by
    simp [mainInterleaved, forBatches, interleavedBuild, interleavedGasSort,
      interleavedRebuild, interleavedSearch, stateUnitRatio, List.range_succ]
  have key : ∀ t : List (Call ℚ),
      t = [Call.createGeometry 0 1, Call.gasSortSearch 0, Call.search 0] →
      ¬ RebuiltAfterGasSort t 0 := by
    rintro t ht ⟨pre, mid, post, r, h, hm⟩
    rw [ht] at h
    have hlen := congrArg List.length h
    have hmid : 0 < mid.length := List.length_pos_of_mem hm
    rcases pre with _ | ⟨a, pre⟩
    · simp at h
    · simp at hlen
      omega
  refine ⟨by decide, by decide, by decide, by decide, hs, hi, key _ hs, key _ hi⟩

/-! ### `genGridInfo`: nearest multiple of the meta-grid dimension -/

theorem floorLog2Aux_spec : ∀ fuel n, 0 < n → n < 2 ^ fuel →
    2 ^ floorLog2Aux fuel n ≤ n ∧ n < 2 ^ (floorLog2Aux fuel n + 1) := by
  intro fuel
  induction fuel with
  | zero => intro n h0 h1; simp at h1; omega
  | succ fuel ih =>
    intro n h0 h1
    unfold floorLog2Aux
    split_ifs with h2
    · have : n = 1 := by omega
      subst this
      simp
    · have h3 : 0 < n / 2 := Nat.div_pos (by omega) (by norm_num)
      have h4 : n / 2 < 2 ^ fuel := by
        rw [Nat.div_lt_iff_lt_mul (by norm_num)]
        rw [pow_succ] at h1
        exact h1
      obtain ⟨h5, h6⟩ := ih (n / 2) h3 h4
      rw [pow_succ]
      rw [pow_succ] at h6 ⊢
      constructor <;> omega

theorem floorLog2_spec (n : Nat) (h0 : 0 < n) (h1 : n < 2 ^ 64) :
    2 ^ floorLog2 n ≤ n ∧ n < 2 ^ (floorLog2 n + 1) :=
  floorLog2Aux_spec 64 n h0 h1

theorem roundHalfEven_ge (p b : Nat) : p / b ≤ roundHalfEven p b := by
  unfold roundHalfEven
  split_ifs <;> omega

theorem roundHalfEven_le (p b : Nat) : roundHalfEven p b ≤ p / b + 1 := by
  unfold roundHalfEven
  split_ifs <;> omega

theorem roundHalfEven_exact (p b : Nat) (hb : 0 < b) (h : p % b = 0) :
    roundHalfEven p b = p / b := by
  unfold roundHalfEven
  rw [h, if_pos (by omega)]

theorem roundHalfEven_up (p b : Nat) (h : b < 2 * (p % b)) :
    roundHalfEven p b = p / b + 1 := by
  unfold roundHalfEven
  rw [if_neg (by omega), if_pos h]

theorem ceilfDiv_eq_ceil (a b : Nat) (hb : 0 < b) (hba : b ≤ a) (ha : a < 2 ^ 24) :
    ceilfDiv a b = (a + b - 1) / b := by
  have hb24 : b < 2 ^ 24 := by omega
  unfold ceilfDiv
  simp only [uintToFloat, if_pos ha, if_pos hb24]
  rw [if_neg (by omega), if_neg (by omega)]
  have hq0 : 0 < a / b := Nat.div_pos hba hb
  have hqa : a / b ≤ a := Nat.div_le_self _ _
  obtain ⟨he1, he2⟩ := floorLog2_spec (a / b) hq0 (by
    have : (2 : Nat) ^ 24 < 2 ^ 64 := by norm_num
    omega)
  set e := floorLog2 (a / b) with hedef
  set q := a / b with hqdef
  set r := a % b with hrdef
  have hab : a = b * q + r := (Nat.div_add_mod a b).symm
  have hrb : r < b := Nat.mod_lt _ hb
  -- the target value
  have htarget : (a + b - 1) / b = if r = 0 then q else q + 1 := by
    split_ifs with hr0
    · apply Nat.div_eq_of_lt_le
      · rw [hab, hr0, Nat.mul_comm]; omega
      · rw [hab, hr0, Nat.add_mul, Nat.mul_comm]; omega
    · apply Nat.div_eq_of_lt_le
      · rw [hab, Nat.add_mul, Nat.mul_comm]; omega
      · rw [hab, Nat.add_mul, Nat.add_mul, Nat.mul_comm]; omega
  rw [htarget]
  split_ifs with h23 hr0 hr0
  · -- e ≥ 23 forces b = 1 and e = 23, r = 0
    have hp23 : (2 : Nat) ^ 23 ≤ 2 ^ e := Nat.pow_le_pow_right (by norm_num) h23
    have hbq : b * q ≤ a := by omega
    have hb1 : b = 1 := by
      by_contra hne
      have h2 : 2 ≤ b := by omega
      have : 2 * q ≤ b * q := Nat.mul_le_mul_right _ h2
      have h224 : (2 : Nat) ^ 24 = 2 * 2 ^ 23 := by norm_num
      omega
    subst hb1
    have he23 : e = 23 := by
      by_contra hne
      have h24 : 24 ≤ e := by omega
      have hp24 : (2 : Nat) ^ 24 ≤ 2 ^ e := Nat.pow_le_pow_right (by norm_num) h24
      omega
    rw [he23]
    have hm1 : a % 1 = 0 := Nat.mod_one a
    simp [roundHalfEven, hqdef, hm1]
  · have hb1 : b = 1 := by
      have hp23 : (2 : Nat) ^ 23 ≤ 2 ^ e := Nat.pow_le_pow_right (by norm_num) h23
      by_contra hne
      have h2 : 2 ≤ b := by omega
      have : 2 * q ≤ b * q := Nat.mul_le_mul_right _ h2
      have h224 : (2 : Nat) ^ 24 = 2 * 2 ^ 23 := by norm_num
      omega
    exfalso
    apply hr0
    rw [hrdef, hb1]
    exact Nat.mod_one a
  · -- e < 23, r = 0
    set s := 2 ^ (23 - e) with hsdef
    have hs : 0 < s := Nat.pow_pos (by norm_num)
    have has : a * s = b * (q * s) := by rw [hab, hr0]; ring
    have h1 : (a * s) % b = 0 := by rw [has]; exact Nat.mul_mod_right _ _
    have h2 : (a * s) / b = q * s := by rw [has]; exact Nat.mul_div_cancel_left _ hb
    rw [roundHalfEven_exact _ _ hb h1, h2]
    apply Nat.div_eq_of_lt_le
    · omega
    · rw [Nat.add_mul]; omega
  · -- e < 23, r > 0
    set s := 2 ^ (23 - e) with hsdef
    have hs : 0 < s := Nat.pow_pos (by norm_num)
    have hrpos : 0 < r := Nat.pos_of_ne_zero hr0
    set n := roundHalfEven (a * s) b with hndef
    set f := (a * s) / b with hfdef
    set m := (a * s) % b with hmdef
    have hfm : a * s = b * f + m := (Nat.div_add_mod (a * s) b).symm
    have hmb : m < b := Nat.mod_lt _ hb
    have hexp : a * s = b * (q * s) + r * s := by rw [hab]; ring
    have hrs : r * s < b * s := Nat.mul_lt_mul_of_pos_right hrb hs
    -- bounds on f
    have hf_lo : q * s ≤ f := by
      by_contra hcon
      have h1 : f + 1 ≤ q * s := by omega
      have h2 : b * (f + 1) ≤ b * (q * s) := Nat.mul_le_mul_left _ h1
      rw [Nat.mul_add, Nat.mul_one] at h2
      omega
    have hf_hi : f < q * s + s := by
      by_contra hcon
      have h1 : q * s + s ≤ f := by omega
      have h2 : b * (q * s + s) ≤ b * f := Nat.mul_le_mul_left _ h1
      rw [Nat.mul_add] at h2
      omega
    have hn_le : n ≤ f + 1 := roundHalfEven_le _ _
    have hn_ge : f ≤ n := roundHalfEven_ge _ _
    have hn_lo : q * s + 1 ≤ n := by
      by_cases hfq : f = q * s
      · -- then m = r * s and 2 * m > b
        have hm_eq : m = r * s := by
          rw [hfq] at hfm
          omega
        have hb2s : b < 2 * s := by
          have h1 : b * 2 ^ e ≤ b * q := Nat.mul_le_mul_left _ he1
          have h2 : 2 ^ e * s = 2 ^ 23 := by
            rw [hsdef, ← pow_add]
            congr 1
            omega
          have h3 : b * 2 ^ e < 2 ^ 24 := by omega
          have h4 : b * 2 ^ e * s < 2 ^ 24 * s := Nat.mul_lt_mul_of_pos_right h3 hs
          have h5 : b * 2 ^ e * s = b * 2 ^ 23 := by rw [Nat.mul_assoc, h2]
          have h6 : (2 : Nat) ^ 24 * s = 2 * s * 2 ^ 23 := by
            have : (2 : Nat) ^ 24 = 2 * 2 ^ 23 := by norm_num
            rw [this]; ring
          rw [h5, h6] at h4
          exact Nat.lt_of_mul_lt_mul_right h4
        have hrs1 : s ≤ r * s := Nat.le_mul_of_pos_left _ hrpos
        have hup : b < 2 * ((a * s) % b) := by
          rw [← hmdef, hm_eq]; omega
        have := roundHalfEven_up (a * s) b hup
        rw [← hndef, ← hfdef] at this
        omega
      · omega
    apply Nat.div_eq_of_lt_le
    · rw [Nat.add_mul] ; omega
    · rw [Nat.add_mul, Nat.add_mul]; omega

theorem leastMultipleGE_spec (m n : Nat) (hm : 0 < m) :
    m ∣ leastMultipleGE m n ∧ n ≤ leastMultipleGE m n ∧ leastMultipleGE m n < n + m ∧
      ∀ k, m ∣ k → n ≤ k → leastMultipleGE m n ≤ k := by
  unfold leastMultipleGE
  have h1 : (n + m - 1) / m * m ≤ n + m - 1 := Nat.div_mul_le_self _ _
  have h2 : n + m - 1 < ((n + m - 1) / m + 1) * m := by
    have := Nat.lt_succ_self ((n + m - 1) / m)
    exact (Nat.div_lt_iff_lt_mul hm).mp this
  rw [Nat.add_mul, Nat.one_mul] at h2
  refine ⟨Dvd.intro_left _ rfl, by omega, by omega, ?_⟩
  rintro k ⟨j, rfl⟩ hk
  have h3 : (n + m - 1) / m ≤ (m * j + m - 1) / m := Nat.div_le_div_right (by omega)
  have h4 : (m * j + m - 1) / m = j := by
    apply Nat.div_eq_of_lt_le
    · rw [Nat.mul_comm]; omega
    · rw [Nat.add_mul, Nat.mul_comm]; omega
  rw [h4] at h3
  calc (n + m - 1) / m * m ≤ j * m := Nat.mul_le_mul_right _ h3
    _ = m * j := Nat.mul_comm _ _

theorem uintMul_ceilfDiv_small (n m : Nat) (hm : 0 < m) (hmn : m ≤ n) (hn : n < 2 ^ 24) :
    uintMul (ceilfDiv n m) m = leastMultipleGE m n := by
  rw [ceilfDiv_eq_ceil n m hm hmn hn]
  have h := (leastMultipleGE_spec m n hm).2.2.1
  unfold leastMultipleGE at h ⊢
  apply uintMul_of_lt
  have : (2 : Nat) ^ 24 + 2 ^ 24 < 2 ^ 32 := by norm_num
  omega

/-- Below `2 ^ 24` cells per axis the single-precision quotient is exact enough:
`genGridInfo` sets `meta_grid_dim` to the minimum of the three positive initial counts and
every final per-axis count is the least multiple of `meta_grid_dim` that is at least the
initial count, so it exceeds the initial count by less than `meta_grid_dim`, and an axis
that attains the minimum is unchanged. -/
theorem genGridInfo_nearest_multiple_of_small (dim0 : uint3)
    (hx : 0 < dim0.x) (hy : 0 < dim0.y) (hz : 0 < dim0.z)
    (hx24 : dim0.x < 2 ^ 24) (hy24 : dim0.y < 2 ^ 24) (hz24 : dim0.z < 2 ^ 24) :
    (genGridInfo dim0).2.meta_grid_dim = min dim0.x (min dim0.y dim0.z) ∧
      (genGridInfo dim0).2.GridDimension =
        { x := leastMultipleGE (genGridInfo dim0).2.meta_grid_dim dim0.x
          y := leastMultipleGE (genGridInfo dim0).2.meta_grid_dim dim0.y
          z := leastMultipleGE (genGridInfo dim0).2.meta_grid_dim dim0.z } ∧
      (dim0.x ≤ (genGridInfo dim0).2.GridDimension.x ∧
        (genGridInfo dim0).2.GridDimension.x < dim0.x + (genGridInfo dim0).2.meta_grid_dim) ∧
      (dim0.y ≤ (genGridInfo dim0).2.GridDimension.y ∧
        (genGridInfo dim0).2.GridDimension.y < dim0.y + (genGridInfo dim0).2.meta_grid_dim) ∧
      (dim0.z ≤ (genGridInfo dim0).2.GridDimension.z ∧
        (genGridInfo dim0).2.GridDimension.z < dim0.z + (genGridInfo dim0).2.meta_grid_dim) ∧
      (dim0.x = (genGridInfo dim0).2.meta_grid_dim →
        (genGridInfo dim0).2.GridDimension.x = dim0.x) ∧
      (dim0.y = (genGridInfo dim0).2.meta_grid_dim →
        (genGridInfo dim0).2.GridDimension.y = dim0.y) ∧
      (dim0.z = (genGridInfo dim0).2.meta_grid_dim →
        (genGridInfo dim0).2.GridDimension.z = dim0.z) := by
  have hm : (genGridInfo dim0).2.meta_grid_dim = min dim0.x (min dim0.y dim0.z) := rfl
  have hG := genGridInfo_GridDimension dim0
  have hMx : (genGridInfo dim0).2.MetaGridDimension.x =
      ceilfDiv dim0.x (genGridInfo dim0).2.meta_grid_dim := rfl
  have hMy : (genGridInfo dim0).2.MetaGridDimension.y =
      ceilfDiv dim0.y (genGridInfo dim0).2.meta_grid_dim := rfl
  have hMz : (genGridInfo dim0).2.MetaGridDimension.z =
      ceilfDiv dim0.z (genGridInfo dim0).2.meta_grid_dim := rfl
  rw [hMx, hMy, hMz] at hG
  set m := (genGridInfo dim0).2.meta_grid_dim with hmdef
  have hmpos : 0 < m := by rw [hm]; omega
  have hmx : m ≤ dim0.x := by rw [hm]; omega
  have hmy : m ≤ dim0.y := by rw [hm]; omega
  have hmz : m ≤ dim0.z := by rw [hm]; omega
  rw [uintMul_ceilfDiv_small _ _ hmpos hmx hx24, uintMul_ceilfDiv_small _ _ hmpos hmy hy24,
    uintMul_ceilfDiv_small _ _ hmpos hmz hz24] at hG
  obtain ⟨-, hx1, hx2, hx3⟩ := leastMultipleGE_spec m dim0.x hmpos
  obtain ⟨-, hy1, hy2, hy3⟩ := leastMultipleGE_spec m dim0.y hmpos
  obtain ⟨-, hz1, hz2, hz3⟩ := leastMultipleGE_spec m dim0.z hmpos
  rw [hG]
  refine ⟨hm, rfl, ⟨hx1, hx2⟩, ⟨hy1, hy2⟩, ⟨hz1, hz2⟩, ?_, ?_, ?_⟩
  · intro h
    exact le_antisymm (hx3 dim0.x (by rw [h]) (le_refl _)) hx1
  · intro h
    exact le_antisymm (hy3 dim0.y (by rw [h]) (le_refl _)) hy1
  · intro h
    exact le_antisymm (hz3 dim0.z (by rw [h]) (le_refl _)) hz1

/-- C15, at the failing input: for the initial per-axis cell counts `(33554440, 3, 3)`
`genGridInfo` sets `meta_grid_dim = 3`, the minimum, as claimed, but
`ceilf(33554440 / 3.0f)` is `11184813`, the quotient `11184813.33` being rounded to 24
bits before `ceilf`, so the final `GridDimension.x` is `33554439`: below the original
count, and not `33554442`, the least multiple of `3` that is at least `33554440`. -/
theorem genGridInfo_dimension_below_count :
    (genGridInfo ⟨33554440, 3, 3⟩).2.meta_grid_dim = min 33554440 (min 3 3) ∧
      (genGridInfo ⟨33554440, 3, 3⟩).2.MetaGridDimension.x = 11184813 ∧
      (genGridInfo ⟨33554440, 3, 3⟩).2.GridDimension = ⟨33554439, 3, 3⟩ ∧
      (genGridInfo ⟨33554440, 3, 3⟩).2.GridDimension.x < 33554440 ∧
      leastMultipleGE (genGridInfo ⟨33554440, 3, 3⟩).2.meta_grid_dim 33554440 = 33554442 ∧
      (genGridInfo ⟨33554440, 3, 3⟩).2.GridDimension.x ≠
        leastMultipleGE (genGridInfo ⟨33554440, 3, 3⟩).2.meta_grid_dim 33554440 := by
  decide

/-! ### `genMask`: termination of the ring loop -/

theorem ringSearch_fuel_mono (h : List Nat) (G : uint3) (p : MaskParams) (x y z : Nat) :
    ∀ fuel iter s, ringSearch h G p x y z fuel iter = some s →
      ∀ k, ringSearch h G p x y z (fuel + k) iter = some s := by
  intro fuel
  induction fuel with
  | zero => intro iter s hs; simp [ringSearch] at hs
  | succ fuel ih =>
    intro iter s hs k
    rw [Nat.add_right_comm]
    unfold ringSearch at hs ⊢
    split_ifs at hs ⊢ with h1 h2
    · exact hs
    · exact hs
    · exact ih (iter + 1) s hs k

theorem ringSearch_some_succ_lt (h : List Nat) (G : uint3) (p : MaskParams) (x y z : Nat) :
    ∀ fuel iter t, ringSearch h G p x y z fuel iter = some (t + 1) → t < iter + fuel := by
  intro fuel
  induction fuel with
  | zero => intro iter t hs; simp [ringSearch] at hs
  | succ fuel ih =>
    intro iter t hs
    unfold ringSearch at hs
    split_ifs at hs with h1 h2
    · simp at hs
    · have : iter = t := by simpa using hs
      omega
    · have := ih (iter + 1) t hs
      omega

theorem ringSearch_tiny_radius_none :
    ∀ fuel iter, ringSearch [1] ⟨1, 1, 1⟩ paramsTinyRadius 0 0 0 fuel iter = none := by
  intro fuel
  induction fuel with
  | zero => intro iter; rfl
  | succ fuel ih =>
    intro iter
    unfold ringSearch
    have h1 : ¬ paramsTinyRadius.width iter > paramsTinyRadius.maxWidth := by
      simp [paramsTinyRadius]
    have h2 : ¬ ringCount [1] ⟨1, 1, 1⟩ 0 0 0 iter ≥ paramsTinyRadius.knn := by
      have hle : ringCount [1] ⟨1, 1, 1⟩ 0 0 0 iter ≤ ringSum [1] ⟨1, 1, 1⟩ 0 0 0 iter :=
        Nat.mod_le _ _
      have hsum := ringSum_le_gridTotal [1] ⟨1, 1, 1⟩ 0 0 0 iter
      have htot : gridTotal [1] ⟨1, 1, 1⟩ = 1 := by decide
      have hk : paramsTinyRadius.knn = 10 := rfl
      omega
    rw [if_neg h1, if_neg h2]
    exact ih (iter + 1)

/-- C16, as stated, fails: for a positive radius so small against the cell ratio that
`maxWidth` and every truncated ring width are `0` (radius `1e-20`, cell ratio `1`), and
`k = 10` above the total count `1`, neither exit of the ring loop of the one nonempty
cell is ever taken: the loop returns for no amount of fuel, and so does `genMask`. -/
theorem ringSearch_never_stops_for_tiny_radius :
    [1].getD (cellIndexOf ⟨1, 1, 1⟩ 0 0 0) 0 ≠ 0 ∧
      (¬ ∃ fuel s, ringSearch [1] ⟨1, 1, 1⟩ paramsTinyRadius 0 0 0 fuel 0 = some s) ∧
      ¬ ∃ fuel res, genMask [1] 1 ⟨1, 1, 1⟩ paramsTinyRadius fuel = some res := by
  refine ⟨by decide, ?_, ?_⟩
  · rintro ⟨fuel, s, hs⟩
    rw [ringSearch_tiny_radius_none] at hs
    exact Option.noConfusion hs
  · rintro ⟨fuel, res, hres⟩
    have hloop : genMaskLoop [1] ⟨1, 1, 1⟩ paramsTinyRadius fuel (gridCells ⟨1, 1, 1⟩)
        (List.replicate 1 0) = none := by
      have hc : gridCells ⟨1, 1, 1⟩ = [(0, 0, 0)] := by decide
      rw [hc]
      unfold genMaskLoop
      rw [if_neg (by decide), ringSearch_tiny_radius_none]
    unfold genMask at hres
    rw [hloop] at hres
    exact Option.noConfusion hres

/-- C16, amended: for every grid, every count array, every target `k` (also above the
total count) and every cell, whenever some ring `J` has a truncated width above
`maxWidth`, the ring loop terminates and its ring index never exceeds `J` (in particular
the first such ring): the `J + 1` iterations for the rings `0, ..., J` suffice, more fuel
does not change the result, the stored search size is at most `J`, and `genMask` as a
whole returns. -/
theorem ringSearch_stops_by_wide_ring (h : List Nat) (numberOfCells : Nat) (G : uint3)
    (p : MaskParams) (x y z J : Nat) (hJ : p.maxWidth < p.width J) :
    ∃ s, ringSearch h G p x y z (J + 1) 0 = some s ∧ s ≤ J ∧
      (∀ fuel, J < fuel → ringSearch h G p x y z fuel 0 = some s) ∧
      ∀ fuel, J < fuel → ∃ res, genMask h numberOfCells G p fuel = some res := by
  obtain ⟨s, hs⟩ := ringSearch_stops h G p x y z (J + 1) 0 J (Nat.zero_le _) (by omega)
    (Or.inl hJ)
  refine ⟨s, hs, ?_, ?_, ?_⟩
  · rcases s with _ | t
    · exact Nat.zero_le _
    · obtain ⟨-, hw, -⟩ := ringSearch_some_succ h G p x y z (J + 1) 0 t hs
      have hlt := ringSearch_some_succ_lt h G p x y z (J + 1) 0 t hs
      have hne : t ≠ J := by
        rintro rfl
        omega
      omega
  · intro fuel hfuel
    obtain ⟨k, rfl⟩ : ∃ k, fuel = J + 1 + k := ⟨fuel - (J + 1), by omega⟩
    exact ringSearch_fuel_mono h G p x y z (J + 1) 0 s hs k
  · intro fuel hfuel
    exact genMask_returns h numberOfCells G p fuel (fun a b c _ _ _ _ =>
      ringSearch_stops h G p a b c fuel 0 J (Nat.zero_le _) (by omega) (Or.inl hJ))

theorem ringSearch_stops_by_wide_ring_witness :
    ∃ s, ringSearch countsTwoCube ⟨2, 2, 2⟩ paramsRingZero 0 0 1 (1 + 1) 0 = some s ∧ s ≤ 1 ∧
      (∀ fuel, 1 < fuel →
        ringSearch countsTwoCube ⟨2, 2, 2⟩ paramsRingZero 0 0 1 fuel 0 = some s) ∧
      ∀ fuel, 1 < fuel → ∃ res, genMask countsTwoCube 8 ⟨2, 2, 2⟩ paramsRingZero fuel = some res :=
  ringSearch_stops_by_wide_ring countsTwoCube 8 ⟨2, 2, 2⟩ paramsRingZero 0 0 1 1 (by decide)

/-! ### `genGridInfo` and `genMask`: the cell indices -/

theorem toInt32_of_lt (v : Nat) (hv : v < 2 ^ 31) : toInt32 v = (v : Int) := by
  unfold toInt32
  have h1 : v % 2 ^ 32 = v := Nat.mod_eq_of_lt (by omega)
  rw [h1, if_pos hv]

/-- When nothing wraps in `genGridInfo`, the returned `numberOfCells` is the product of
the three final per-axis cell counts, every in-grid raster index, computed in
`unsigned int` as for the neighbours (line 97), is below `numberOfCells`, and the centre
index, held in an `int` (line 84), is within bounds as long as `numberOfCells` does not
exceed `2 ^ 31`. -/
theorem genMask_indices_in_bounds_of_fits (dim0 : uint3)
    (hfit : (genGridInfo dim0).2.MetaGridDimension.x * (genGridInfo dim0).2.MetaGridDimension.y *
      (genGridInfo dim0).2.MetaGridDimension.z * (genGridInfo dim0).2.meta_grid_dim ^ 3 < 2 ^ 32)
    (x y z : Nat) (hx : x < (genGridInfo dim0).2.GridDimension.x)
    (hy : y < (genGridInfo dim0).2.GridDimension.y)
    (hz : z < (genGridInfo dim0).2.GridDimension.z) :
    (genGridInfo dim0).1 =
        (genGridInfo dim0).2.GridDimension.x * (genGridInfo dim0).2.GridDimension.y *
          (genGridInfo dim0).2.GridDimension.z ∧
      cellIndexOf (genGridInfo dim0).2.GridDimension x y z < (genGridInfo dim0).1 ∧
      ((genGridInfo dim0).1 ≤ 2 ^ 31 →
        InBounds (centreIndex (genGridInfo dim0).2.GridDimension x y z) (genGridInfo dim0).1) := by
  have hGd := genGridInfo_GridDimension dim0
  set n := (genGridInfo dim0).1 with hn
  set G := (genGridInfo dim0).2.GridDimension with hG
  set a := (genGridInfo dim0).2.MetaGridDimension.x with ha
  set b := (genGridInfo dim0).2.MetaGridDimension.y with hb
  set c := (genGridInfo dim0).2.MetaGridDimension.z with hc
  set m := (genGridInfo dim0).2.meta_grid_dim with hm
  have hGx : G.x = uintMul a m := by rw [hGd]
  have hGy : G.y = uintMul b m := by rw [hGd]
  have hGz : G.z = uintMul c m := by rw [hGd]
  have hxpos : 0 < uintMul a m := by omega
  have hypos : 0 < uintMul b m := by omega
  have hzpos : 0 < uintMul c m := by omega
  have pos_of : ∀ u v : Nat, 0 < uintMul u v → 0 < u ∧ 0 < v := by
    intro u v huv
    unfold uintMul at huv
    constructor
    · rcases Nat.eq_zero_or_pos u with h0 | h0
      · rw [h0] at huv; simp at huv
      · exact h0
    · rcases Nat.eq_zero_or_pos v with h0 | h0
      · rw [h0] at huv; simp at huv
      · exact h0
  obtain ⟨hapos, hmpos⟩ := pos_of a m hxpos
  obtain ⟨hbpos, -⟩ := pos_of b m hypos
  obtain ⟨hcpos, -⟩ := pos_of c m hzpos
  have habc : 0 < a * b * c := Nat.mul_pos (Nat.mul_pos hapos hbpos) hcpos
  have hcount : n = a * b * c * m ^ 3 := genGridInfo_cell_count_of_fits dim0 hfit habc
  have hprod : a * m * (b * m) * (c * m) = a * b * c * m ^ 3 := by ring
  have h1 : 1 ≤ a * m := Nat.mul_pos hapos hmpos
  have h2 : 1 ≤ b * m := Nat.mul_pos hbpos hmpos
  have h3 : 1 ≤ c * m := Nat.mul_pos hcpos hmpos
  have ham : a * m < 2 ^ 32 := by
    have : a * m * 1 * 1 ≤ a * m * (b * m) * (c * m) :=
      Nat.mul_le_mul (Nat.mul_le_mul (le_refl _) h2) h3
    omega
  have hbm : b * m < 2 ^ 32 := by
    have : 1 * (b * m) * 1 ≤ a * m * (b * m) * (c * m) :=
      Nat.mul_le_mul (Nat.mul_le_mul h1 (le_refl _)) h3
    omega
  have hcm : c * m < 2 ^ 32 := by
    have : 1 * 1 * (c * m) ≤ a * m * (b * m) * (c * m) :=
      Nat.mul_le_mul (Nat.mul_le_mul h1 h2) (le_refl _)
    omega
  rw [uintMul_of_lt _ _ ham] at hGx
  rw [uintMul_of_lt _ _ hbm] at hGy
  rw [uintMul_of_lt _ _ hcm] at hGz
  have hnG : n = G.x * G.y * G.z := by rw [hGx, hGy, hGz, hprod, hcount]
  have hG32 : G.x * G.y * G.z ≤ 2 ^ 32 := by omega
  have hidx : cellIndexOf G x y z < n := by
    rw [cellIndexOf_eq G x y z hx hy hz hG32, hnG]
    exact raster_lt G x y z hx hy hz
  refine ⟨hnG, hidx, ?_⟩
  intro hsmall
  unfold InBounds centreIndex
  rw [toInt32_of_lt _ (by omega)]
  exact ⟨Int.natCast_nonneg _, by exact_mod_cast hidx⟩

/-- C17, at the failing input: for the initial per-axis cell counts `(3072, 1024, 1024)`
nothing wraps in `genGridInfo`, which returns `numberOfCells = 3221225472`, the product
of the final per-axis cell counts. For the cell `(2048, 0, 0)` of that grid the raster
index is `2147483648`; the neighbour index of line 97, an `unsigned int`, holds it, but
the centre index of line 84, an `int`, becomes `-2147483648`, which is not a valid index
into arrays of `numberOfCells` entries: as a subscript of `h_CellParticleCounts` it points
before the array, and as a subscript of the vector `cellSearchSize` it is
`2 ^ 64 - 2 ^ 31`, not below `numberOfCells`. -/
theorem genMask_centre_index_out_of_bounds :
    genGridInfo ⟨3072, 1024, 1024⟩ =
        (3221225472,
          { GridDimension := ⟨3072, 1024, 1024⟩, meta_grid_dim := 1024,
            meta_grid_size := 1073741824, MetaGridDimension := ⟨3, 1, 1⟩ }) ∧
      (3221225472 : Nat) = 3072 * 1024 * 1024 ∧ (3221225472 : Nat) < 2 ^ 32 ∧
      cellIndexOf ⟨3072, 1024, 1024⟩ 2048 0 0 = 2147483648 ∧
      centreIndex ⟨3072, 1024, 1024⟩ 2048 0 0 = -2147483648 ∧
      ¬ InBounds (centreIndex ⟨3072, 1024, 1024⟩ 2048 0 0) 3221225472 ∧
      ¬ toSizeT (centreIndex ⟨3072, 1024, 1024⟩ 2048 0 0) < 3221225472 := by
  decide

end RTNN
